import Mathlib

/-!
# Verification of the `konkers/sm` Super Metroid data-extraction library

Shallow embedding of the Rust sources under `src/super-metroid/src/`
(`rommap.rs`, `compression.rs`, `lib.rs`) as executable Lean definitions,
together with theorems settling the specification claims.

Modelling conventions:
* a byte slice `&[u8]` is a `Rom`: a total byte function plus a size; every
  read is taken modulo 256 (the Rust type is `u8`);
* machine integers are `Nat` with explicit masks/`%` where the Rust code
  wraps; `u16`/`usize` subtractions that can underflow are modelled with the
  release-build wrapping semantics (`(x + 2^w - y) % 2^w`);
* fallible code returns `Except LErr`; Rust panics (slice index out of
  bounds, subtraction overflow) are modelled by the distinguished error
  values `LErr.panicIndex` / `LErr.panicSubOverflow`, which are not error
  returns of the Rust function but aborts;
* every loop of the Rust code is embedded with an explicit fuel parameter
  (structural recursion); exhaustion yields the distinguished `LErr.fuel`
  value and the termination theorems prove that with the fuel budgets used
  by the top-level entry points `LErr.fuel` is never returned.
-/

/-- A read-only byte buffer: `data i` is the byte at offset `i` (callers mask
with `% 256`), `size` its length.  Models the Rust `&[u8]` ROM image. -/
structure Rom where
  data : Nat → Nat
  size : Nat

/-- Build a `Rom` from an explicit byte list. -/
def Rom.ofList (l : List Nat) : Rom :=
  { data := fun i => l.getD i 0, size := l.length }

/-- Read the byte at offset `i`, `none` past the end (a failed `read_u8`). -/
def Rom.byte (rom : Rom) (i : Nat) : Option Nat :=
  if i < rom.size then some (rom.data i % 256) else none

/-! ## `rommap.rs` : the address map -/

/-- `rom_addr!(bank, offset)` from `rommap.rs`:
`((bank - 0x80) << 15) + (offset - 0x8000)`.  The u16 offset subtraction is
modelled with wrapping semantics; for `0x8000 ≤ offset < 0x10000` it equals
`offset - 0x8000`. -/
def rom_addr (bank offset : Nat) : Nat :=
  ((bank - 0x80) <<< 15) + ((offset + 0x8000) % 0x10000)

/-- `snes_to_rom_addr!(addr)` from `rommap.rs`. -/
def snes_to_rom_addr (addr : Nat) : Nat :=
  rom_addr ((addr >>> 16) &&& 0xff) (addr &&& 0xffff)

/-- `rom_addr_to_snes16!(addr)` from `rommap.rs`: `((addr & 0x7fff) + 0x8000)`. -/
def rom_addr_to_snes16 (addr : Nat) : Nat :=
  (addr &&& 0x7fff) + 0x8000

/-- `rom_addr_to_snes!(addr)` from `rommap.rs`. -/
def rom_addr_to_snes (addr : Nat) : Nat :=
  0x800000 + ((addr <<< 1) &&& 0xff0000) + ((addr &&& 0x7fff) + 0x8000)

/-- `ROOM_MDB_START` from `rommap.rs`. -/
def ROOM_MDB_START : Nat := rom_addr 0x8f 0x91f8

/-- `TILESET_POINTER_TABLE` from `rommap.rs`. -/
def TILESET_POINTER_TABLE : Nat := rom_addr 0x8f 0xe7a7

/-- `TILESET_POINTER_TABLE_COUNT` from `rommap.rs`. -/
def TILESET_POINTER_TABLE_COUNT : Nat := 29

/-- `TILESET_ENTRY_BANK` from `rommap.rs`. -/
def TILESET_ENTRY_BANK : Nat := 0x8f

/-- `CRE_TILES` from `rommap.rs`. -/
def CRE_TILES : Nat := rom_addr 0xb9 0x8000

/-- `CRE_TILE_TABLE` from `rommap.rs`. -/
def CRE_TILE_TABLE : Nat := rom_addr 0xb9 0xa09d

/-! ## Errors -/

/-- Abnormal outcomes of the embedded code.  `shortRead`, `unknown*` and
`wrongSizedRoomData`/`wrongRomSize` are error values actually returned by the
Rust code (`failure::Error`); `panicIndex` / `panicSubOverflow` model Rust
panics (slice index out of bounds / usize-subtraction overflow); `fuel`
models loop-budget exhaustion of the embedding and is proved unreachable. -/
inductive LErr where
  | fuel
  | shortRead
  | unknownOp
  | panicIndex
  | panicSubOverflow
  | unknownArea
  | unknownEvent
  | unknownStateCondition
  | unknownTileSet
  | unknownBlockType
  | wrongSizedRoomData
  | wrongRomSize
deriving DecidableEq, Repr

instance {ε α : Type _} [DecidableEq ε] [DecidableEq α] : DecidableEq (Except ε α) := fun
  | .ok a, .ok b =>
    match decEq a b with
    | isTrue h => isTrue (h ▸ rfl)
    | isFalse h => isFalse fun hc => h (Except.ok.inj hc)
  | .ok _, .error _ => isFalse fun hc => Except.noConfusion hc
  | .error _, .ok _ => isFalse fun hc => Except.noConfusion hc
  | .error a, .error b =>
    match decEq a b with
    | isTrue h => isTrue (h ▸ rfl)
    | isFalse h => isFalse fun hc => h (Except.error.inj hc)

/-- `read_u8` on a cursor, as an `Except`. -/
def readByteE (rom : Rom) (pos : Nat) : Except LErr Nat :=
  match rom.byte pos with
  | some b => .ok b
  | none => .error .shortRead

/-- `read_u16::<LittleEndian>` on a cursor. -/
def readU16E (rom : Rom) (pos : Nat) : Except LErr Nat := do
  let b0 ← readByteE rom pos
  let b1 ← readByteE rom (pos + 1)
  .ok (b0 + (b1 <<< 8))

/-- `read_u24::<LittleEndian>` on a cursor. -/
def readU24E (rom : Rom) (pos : Nat) : Except LErr Nat := do
  let b0 ← readByteE rom pos
  let b1 ← readByteE rom (pos + 1)
  let b2 ← readByteE rom (pos + 2)
  .ok (b0 + (b1 <<< 8) + (b2 <<< 16))

/-- Read `n` consecutive bytes starting at `pos`. -/
def readBytes (rom : Rom) (pos : Nat) : Nat → Except LErr (List Nat)
  | 0 => .ok []
  | n + 1 => do
    let b ← readByteE rom pos
    let rest ← readBytes rom (pos + 1) n
    .ok (b :: rest)

/-! ## `compression.rs` : the decompressor -/

/-- The copy loops of `LibraryCopy`/`XorCopy`/`SubtractCopy`/`ExtendedCmd`:
`for i in 0..n { out.push(out[addr + i] ^ mask) }`.  The output grows while
being read, so a start address below the current length never goes out of
bounds; reading at or past the end is the Rust index panic. -/
def copyFrom (out : List Nat) (addr : Nat) (xorF : Bool) : Nat → Except LErr (List Nat)
  | 0 => .ok out
  | n + 1 =>
    match out.get? addr with
    | some v => copyFrom (out ++ [if xorF then v ^^^ 0xff else v]) (addr + 1) xorF n
    | none => .error .panicIndex

/-- The main loop of `compression.rs::decompress`.  One fuel unit per loop
iteration; each iteration consumes at least one input byte, so
`rom.size + 1` fuel always suffices (proved below). -/
def dgo (rom : Rom) : Nat → Nat → List Nat → Except LErr (List Nat)
  | 0, _, _ => .error .fuel
  | fuel + 1, pos, out =>
    match rom.byte pos with
    | none => .error .shortRead
    | some b =>
      if b = 0xff then .ok out
      else
        match (if b >>> 5 = 7 then
                 -- extended op: inner op in bits 4:2, 10-bit size
                 (rom.byte (pos + 1)).map fun s =>
                   ((b >>> 2) &&& 0x7, (((b &&& 0x3) <<< 8) ||| s) + 1, pos + 2)
               else
                 some (b >>> 5, (b &&& 0x1f) + 1, pos + 1)) with
      | none => .error .shortRead
      | some (op, size, p) =>
        match op with
        | 0 => do       -- DirectCopy
          let bs ← readBytes rom p size
          dgo rom fuel (p + size) (out ++ bs)
        | 1 => do       -- ByteFill
          let x ← readByteE rom p
          dgo rom fuel (p + 1) (out ++ List.replicate size x)
        | 2 => do       -- WordFill
          let a ← readByteE rom p
          let b2 ← readByteE rom (p + 1)
          dgo rom fuel (p + 2)
            (out ++ (List.range size).map fun i => if i &&& 0x1 = 0 then a else b2)
        | 3 => do       -- SigmaFill
          let x ← readByteE rom p
          dgo rom fuel (p + 1) (out ++ (List.range size).map fun i => (x + i) % 256)
        | 4 => do       -- LibraryCopy
          let addr ← readU16E rom p
          let out2 ← copyFrom out addr false size
          dgo rom fuel (p + 2) out2
        | 5 => do       -- XorCopy
          let addr ← readU16E rom p
          let out2 ← copyFrom out addr true size
          dgo rom fuel (p + 2) out2
        | 6 => do       -- SubtractCopy
          let d ← readByteE rom p
          if d ≤ out.length then do
            let out2 ← copyFrom out (out.length - d) false size
            dgo rom fuel (p + 1) out2
          else .error .panicSubOverflow
        | 7 => do       -- ExtendedCmd inner op 7: subtract-copy with XOR
          let d ← readByteE rom p
          if d ≤ out.length then do
            let out2 ← copyFrom out (out.length - d) true size
            dgo rom fuel (p + 1) out2
          else .error .panicSubOverflow
        | _ => .error .unknownOp    -- unreachable: op is a 3-bit field

/-- `decompress` applied to the suffix of `rom` starting at `start`
(the Rust call `decompress(&rom_data[start..])`). -/
def decompressAt (rom : Rom) (start : Nat) : Except LErr (List Nat) :=
  dgo rom (rom.size + 1) start []

/-- `compression.rs::decompress` on an explicit byte list. -/
def decompress (l : List Nat) : Except LErr (List Nat) :=
  decompressAt (Rom.ofList l) 0

example : decompress [0x2, 0x1, 0x2, 0x3, 0xff] = .ok [0x1, 0x2, 0x3] := by decide
example : decompress [0x64, 0x1, 0xfc, 0x02, 0x03, 0xff] =
    .ok [0x1, 0x2, 0x3, 0x4, 0x5, 0xfc, 0xfb, 0xfa] := by decide

/-! ## `lib.rs` : data model -/

/-- `Area` (contiguous tags 0x00…0x07); `Area.fromU8` is `Area::from_u8`. -/
structure Area where
  val : Nat
deriving DecidableEq, Repr

def Area.fromU8 (n : Nat) : Option Area :=
  if n ≤ 0x07 then some ⟨n⟩ else none

/-- `Event` (contiguous tags 0x00…0x15); `Event.fromU8` is `Event::from_u8`. -/
structure Event where
  val : Nat
deriving DecidableEq, Repr

def Event.fromU8 (n : Nat) : Option Event :=
  if n ≤ 0x15 then some ⟨n⟩ else none

/-- `TileSet` id (contiguous tags 0x00…0x1c); `fromU8` is `TileSet::from_u8`. -/
structure TileSet where
  val : Nat
deriving DecidableEq, Repr

def TileSet.fromU8 (n : Nat) : Option TileSet :=
  if n ≤ 0x1c then some ⟨n⟩ else none

/-- `BlockType` (contiguous tags 0x0…0xf); `fromU8` is `BlockType::from_u8`. -/
structure BlockType where
  val : Nat
deriving DecidableEq, Repr

def BlockType.fromU8 (n : Nat) : Option BlockType :=
  if n ≤ 0xf then some ⟨n⟩ else none

/-- `BlockType::DoorBlock = 0x9`. -/
def BlockType.doorBlock : BlockType := ⟨0x9⟩

/-- `StateCondition` with its payloads (`lib.rs`). -/
inductive StateCondition where
  | default
  | doorPointerIs (value : Nat)
  | mainAreaBossDead
  | eventSet (event : Event)
  | areaBossesDead (bosses : Nat)
  | hasMorphBall
  | hasMorphBallAndMissiles
  | hasPowerBombs
  | hasSpeedBooster
deriving DecidableEq, Repr

/-- `StateData` (26-byte record, `lib.rs`). -/
structure StateData where
  level_data : Nat
  tile_set : TileSet
  music_data_index : Nat
  music_track : Nat
  fx_ptr : Nat
  enemy_population : Nat
  enemy_set : Nat
  layer_2_scroll_x : Nat
  layer_2_scroll_y : Nat
  scroll_ptr : Nat
  x_ray_block_ptr : Nat
  main_asm_ptr : Nat
  plm_ptr : Nat
  bg_ptr : Nat
  setup_asm_ptr : Nat
deriving DecidableEq, Repr

/-- `State` = condition + data. -/
structure State where
  condition : StateCondition
  data : StateData
deriving DecidableEq, Repr

/-- `BlockInfo` decoded from one u16. -/
structure BlockInfo where
  ty : BlockType
  x_flip : Bool
  y_flip : Bool
  tile_index : Nat
deriving DecidableEq, Repr

/-- `RoomData` (`lib.rs`). -/
structure RoomData where
  layer_1 : List BlockInfo
  bts : List Nat
  layer_2 : Option (List BlockInfo)
  num_doors : Nat
deriving DecidableEq, Repr

/-- `DoorData` (`lib.rs`). -/
structure DoorData where
  dest_room_ptr : Nat
  elevator_props : Nat
  orientation : Nat
  x : Nat
  y : Nat
  spawn_dist : Nat
  asm_ptr : Nat
deriving DecidableEq, Repr

/-- `RoomMdb` (`lib.rs`). -/
structure RoomMdb where
  index : Nat
  area : Area
  x : Nat
  y : Nat
  width : Nat
  height : Nat
  up_scroller : Nat
  down_scroller : Nat
  graphics_flags : Nat
  door_list_ptr : Nat
  states : List State
  door_list : List DoorData
deriving DecidableEq, Repr

/-- `PlmPopulation` (`lib.rs`). -/
structure PlmPopulation where
  id : Nat
  x : Nat
  y : Nat
  param : Nat
deriving DecidableEq, Repr

/-- `TileSetEntry` (`lib.rs`). -/
structure TileSetEntry where
  tile_table_ptr : Nat
  tiles_ptr : Nat
  palette_ptr : Nat
deriving DecidableEq, Repr

/-- `Tiles` (`lib.rs`): de-planarised 4bpp tile bytes. -/
structure Tiles where
  data : List Nat
deriving DecidableEq, Repr

/-- `TileTable` (`lib.rs`): raw decompressed tile-table bytes. -/
structure TileTable where
  data : List Nat
deriving DecidableEq, Repr

/-! ## Association lists standing for the `HashMap` caches -/

/-- `HashMap::contains_key`. -/
def alContains {α : Type _} (l : List (Nat × α)) (k : Nat) : Bool :=
  l.any fun p => p.1 = k

/-- `HashMap::get`: the most recently inserted binding wins. -/
def alLookup {α : Type _} (l : List (Nat × α)) (k : Nat) : Option α :=
  match l with
  | [] => none
  | p :: rest => if p.1 = k then some p.2 else alLookup rest k

/-- `HashMap::entry(k).or_insert(v)`: insert only when absent. -/
def alOrInsert {α : Type _} (l : List (Nat × α)) (k : Nat) (v : α) : List (Nat × α) :=
  if alContains l k then l else (k, v) :: l

/-! ## `lib.rs` : structured parsers -/

/-- `Loader::load_block_info`: decode one u16. -/
def load_block_info (w : Nat) : Except LErr BlockInfo :=
  match BlockType.fromU8 ((w >>> 12) &&& 0xf) with
  | none => .error .unknownBlockType
  | some ty =>
    .ok { ty := ty
          x_flip := (w &&& 0x400) = 0x400
          y_flip := (w &&& 0x800) = 0x800
          tile_index := w &&& 0x3ff }

/-- Read one little-endian u16 out of a byte list at `pos`. -/
def listReadU16 (data : List Nat) (pos : Nat) : Option Nat :=
  match data.get? pos, data.get? (pos + 1) with
  | some b0, some b1 => some (b0 + (b1 <<< 8))
  | _, _ => none

/-- Read `n` `BlockInfo` records (2 bytes each) out of a byte list. -/
def readBlockList (data : List Nat) (pos : Nat) : Nat → Except LErr (List BlockInfo)
  | 0 => .ok []
  | n + 1 =>
    match listReadU16 data pos with
    | none => .error .shortRead
    | some w => do
      let bi ← load_block_info w
      let rest ← readBlockList data (pos + 2) n
      .ok (bi :: rest)

/-- Read `n` bytes out of a byte list. -/
def readByteList (data : List Nat) (pos : Nat) : Nat → Except LErr (List Nat)
  | 0 => .ok []
  | n + 1 =>
    match data.get? pos with
    | none => .error .shortRead
    | some b => do
      let rest ← readByteList data (pos + 1) n
      .ok (b :: rest)

/-- The `max_door_index` fold of `Loader::load_room_data`: running maximum of
the bts bytes sitting under `DoorBlock` layer-1 blocks, starting at 0. -/
def maxDoorIndex (layer1 : List BlockInfo) (bts : List Nat) : Nat :=
  (layer1.zip bts).foldl
    (fun m p => if p.1.ty = BlockType.doorBlock then max m p.2 else m) 0

/-- `Loader::load_room_data` on the decompressed level-data byte list. -/
def load_room_data (data : List Nat) : Except LErr RoomData := do
  let w ← match listReadU16 data 0 with
          | some w => Except.ok w
          | none => Except.error LErr.shortRead
  let dataLen := data.length - 2
  let numBlocks := w / 2
  if dataLen ≠ numBlocks * 3 ∧ dataLen ≠ numBlocks * 5 then
    .error .wrongSizedRoomData
  else do
    let hasLayer2 := dataLen = numBlocks * 5
    let layer1 ← readBlockList data 2 numBlocks
    let bts ← readByteList data (2 + 2 * numBlocks) numBlocks
    let layer2 ← if hasLayer2 then do
                   let l2 ← readBlockList data (2 + 3 * numBlocks) numBlocks
                   Except.ok (some l2)
                 else Except.ok none
    .ok { layer_1 := layer1
          bts := bts
          layer_2 := layer2
          num_doors := maxDoorIndex layer1 bts + 1 }

/-- `Loader::load_door_data`: a 12-byte door record at `pos`. -/
def load_door_data (rom : Rom) (pos : Nat) : Except LErr DoorData := do
  let dest ← readU16E rom pos
  let elev ← readByteE rom (pos + 2)
  let ori ← readByteE rom (pos + 3)
  let x0 ← readByteE rom (pos + 4)
  let y0 ← readByteE rom (pos + 5)
  let x1 ← readByteE rom (pos + 6)
  let y1 ← readByteE rom (pos + 7)
  let spawn ← readU16E rom (pos + 8)
  let aptr ← readU16E rom (pos + 10)
  .ok { dest_room_ptr := dest
        elevator_props := elev
        orientation := ori
        x := x0 + (x1 <<< 8)
        y := y0 + (y1 <<< 8)
        spawn_dist := spawn
        asm_ptr := aptr }

/-- `Loader::load_room_mdb_header`: the 11-byte header at `pos`. -/
def load_room_mdb_header (rom : Rom) (pos : Nat) : Except LErr RoomMdb := do
  let index ← readByteE rom pos
  let areaRaw ← readByteE rom (pos + 1)
  let area ← match Area.fromU8 areaRaw with
             | some a => Except.ok a
             | none => Except.error LErr.unknownArea
  let x ← readByteE rom (pos + 2)
  let y ← readByteE rom (pos + 3)
  let width ← readByteE rom (pos + 4)
  let height ← readByteE rom (pos + 5)
  let up ← readByteE rom (pos + 6)
  let down ← readByteE rom (pos + 7)
  let gfx ← readByteE rom (pos + 8)
  let dlp ← readU16E rom (pos + 9)
  .ok { index := index, area := area, x := x, y := y, width := width
        height := height, up_scroller := up, down_scroller := down
        graphics_flags := gfx, door_list_ptr := dlp
        states := [], door_list := [] }

/-- `Loader::load_state_condition`: returns the condition and the cursor
position just past it. -/
def load_state_condition (rom : Rom) (pos : Nat) :
    Except LErr (StateCondition × Nat) := do
  let raw ← readU16E rom pos
  if raw = 0xe5e6 then .ok (.default, pos + 2)
  else if raw = 0xe5eb then do
    let v ← readU16E rom (pos + 2)
    .ok (.doorPointerIs v, pos + 4)
  else if raw = 0xe5ff then .ok (.mainAreaBossDead, pos + 2)
  else if raw = 0xe612 then do
    let b ← readByteE rom (pos + 2)
    match Event.fromU8 b with
    | some ev => .ok (.eventSet ev, pos + 3)
    | none => .error .unknownEvent
  else if raw = 0xe629 then do
    let b ← readByteE rom (pos + 2)
    .ok (.areaBossesDead b, pos + 3)
  else if raw = 0xe640 then .ok (.hasMorphBall, pos + 2)
  else if raw = 0xe652 then .ok (.hasMorphBallAndMissiles, pos + 2)
  else if raw = 0xe669 then .ok (.hasPowerBombs, pos + 2)
  else if raw = 0xe678 then .ok (.hasSpeedBooster, pos + 2)
  else .error .unknownStateCondition

/-- `Loader::load_state_data`: the 26-byte record at `pos`. -/
def load_state_data (rom : Rom) (pos : Nat) : Except LErr StateData := do
  let ld ← readU24E rom pos
  let tsRaw ← readByteE rom (pos + 3)
  let ts ← match TileSet.fromU8 tsRaw with
           | some t => Except.ok t
           | none => Except.error LErr.unknownTileSet
  let mdi ← readByteE rom (pos + 4)
  let mt ← readByteE rom (pos + 5)
  let fx ← readU16E rom (pos + 6)
  let ep ← readU16E rom (pos + 8)
  let es ← readU16E rom (pos + 10)
  let sx ← readByteE rom (pos + 12)
  let sy ← readByteE rom (pos + 13)
  let sp ← readU16E rom (pos + 14)
  let xr ← readU16E rom (pos + 16)
  let ma ← readU16E rom (pos + 18)
  let plm ← readU16E rom (pos + 20)
  let bg ← readU16E rom (pos + 22)
  let su ← readU16E rom (pos + 24)
  .ok { level_data := ld, tile_set := ts, music_data_index := mdi
        music_track := mt, fx_ptr := fx, enemy_population := ep
        enemy_set := es, layer_2_scroll_x := sx, layer_2_scroll_y := sy
        scroll_ptr := sp, x_ray_block_ptr := xr, main_asm_ptr := ma
        plm_ptr := plm, bg_ptr := bg, setup_asm_ptr := su }

/-- The loop of `Loader::load_states`: read conditions until `Default`, each
with its `StateData` (pointed to, or — for `Default` — located just past the
condition list).  `pos` is the absolute ROM offset of the cursor. -/
def statesGo (rom : Rom) : Nat → Nat → List State → Except LErr (List State)
  | 0, _, _ => .error .fuel
  | fuel + 1, pos, acc => do
    let (cond, pos2) ← load_state_condition rom pos
    match cond with
    | .default => do
      -- data immediately follows the end of the condition list
      let data ← load_state_data rom (rom_addr 0x8f (rom_addr_to_snes16 pos2))
      .ok (acc ++ [{ condition := .default, data := data }])
    | c => do
      let dataPtr ← readU16E rom pos2
      let data ← load_state_data rom (rom_addr 0x8f dataPtr)
      statesGo rom fuel (pos2 + 2) (acc ++ [{ condition := c, data := data }])

/-- `Loader::load_room_mdb`: header at `offset`, then states at `offset + 0xb`. -/
def load_room_mdb (rom : Rom) (offset : Nat) : Except LErr RoomMdb := do
  let mdb ← load_room_mdb_header rom offset
  let states ← statesGo rom (rom.size + 1) (offset + 0xb) []
  .ok { mdb with states := states }

/-- The loop of `Loader::get_or_load_plm_list`: 6-byte PLM records until a
zero id. -/
def plmGo (rom : Rom) : Nat → Nat → List PlmPopulation → Except LErr (List PlmPopulation)
  | 0, _, _ => .error .fuel
  | fuel + 1, pos, acc => do
    let id ← readU16E rom pos
    if id = 0 then .ok acc
    else do
      let x ← readByteE rom (pos + 2)
      let y ← readByteE rom (pos + 3)
      let param ← readU16E rom (pos + 4)
      plmGo rom fuel (pos + 6) (acc ++ [{ id := id, x := x, y := y, param := param }])

/-! ## `lib.rs` : the Loader -/

/-- `SuperMetroidData` (`lib.rs`): the aggregate returned by `load`.  The
`HashMap` caches are modelled as association lists (`alContains`/`alLookup`).
The `lib.rs` under `src/` has no palettes cache (see `load_palettes` below). -/
structure SuperMetroidData where
  room_mdb : List (Nat × RoomMdb)
  level_data : List (Nat × RoomData)
  plm_population : List (Nat × List PlmPopulation)
  tile_sets : List TileSetEntry
  tiles : List (Nat × Tiles)
  tile_tables : List (Nat × TileTable)
deriving DecidableEq, Repr

/-- The mutable state of `Loader` during the room loop. -/
structure LoaderSt where
  rooms_to_check : List Nat
  room_mdb : List (Nat × RoomMdb)
  level_data : List (Nat × RoomData)
  plm_population : List (Nat × List PlmPopulation)
deriving DecidableEq, Repr

/-- `HashSet::insert` on the frontier (no duplicates). -/
def insertSet (l : List Nat) (x : Nat) : List Nat :=
  if x ∈ l then l else l ++ [x]

/-- `Loader::get_or_load_level_data`.  Rust's `entry(ptr).or_insert(expr)`
evaluates `expr` eagerly, so decompression and parsing run (and can fail)
even on a cache hit; the cached value is kept when present. -/
def get_or_load_level_data (rom : Rom) (cache : List (Nat × RoomData)) (ptr : Nat) :
    Except LErr (List (Nat × RoomData) × RoomData) := do
  let bytes ← decompressAt rom (snes_to_rom_addr ptr)
  let rd ← load_room_data bytes
  match alLookup cache ptr with
  | some v => .ok (cache, v)
  | none => .ok ((ptr, rd) :: cache, rd)

/-- `Loader::get_or_load_plm_list` (same eager `or_insert` semantics). -/
def get_or_load_plm_list (rom : Rom) (cache : List (Nat × List PlmPopulation)) (ptr : Nat) :
    Except LErr (List (Nat × List PlmPopulation) × List PlmPopulation) := do
  let plms ← plmGo rom (rom.size + 1) (rom_addr 0x8f ptr) []
  match alLookup cache ptr with
  | some v => .ok (cache, v)
  | none => .ok ((ptr, plms) :: cache, plms)

/-- `Loader::load_level_data`: walk the room's states, loading level data and
PLM lists, and fold the maximum `num_doors`. -/
def load_level_data (rom : Rom) :
    List State → List (Nat × RoomData) → List (Nat × List PlmPopulation) → Nat →
    Except LErr (List (Nat × RoomData) × List (Nat × List PlmPopulation) × Nat)
  | [], ld, pl, nd => .ok (ld, pl, nd)
  | s :: rest, ld, pl, nd => do
    let (ld2, rd) ← get_or_load_level_data rom ld s.data.level_data
    let (pl2, _) ← get_or_load_plm_list rom pl s.data.plm_ptr
    load_level_data rom rest ld2 pl2 (max nd rd.num_doors)

/-- The loop of `Loader::load_door_list`: read `n` door slots at `pos`, parse
each 12-byte door record in bank 0x83, skip doors whose destination is 0,
and put unseen destinations on the frontier. -/
def load_door_list (rom : Rom) (mdbMap : List (Nat × RoomMdb)) :
    Nat → Nat → List DoorData → List Nat → Except LErr (List DoorData × List Nat)
  | _, 0, doors, frontier => .ok (doors, frontier)
  | pos, n + 1, doors, frontier => do
    let doorPtr ← readU16E rom pos
    let dd ← load_door_data rom (rom_addr 0x83 doorPtr)
    if dd.dest_room_ptr = 0 then
      load_door_list rom mdbMap (pos + 2) n doors frontier
    else
      load_door_list rom mdbMap (pos + 2) n (doors ++ [dd])
        (if alContains mdbMap dd.dest_room_ptr then frontier
         else insertSet frontier dd.dest_room_ptr)

/-- One iteration of the `while` loop in `Loader::load`, for the picked room
pointer `p`: parse the room, load its level data and doors, remove `p` from
the frontier and insert the finished room into `room_mdb`. -/
def stepRoom (rom : Rom) (st : LoaderSt) (p : Nat) : Except LErr LoaderSt := do
  let mdb0 ← load_room_mdb rom (rom_addr 0x8f p)
  let (ld2, pl2, numDoors) ←
    load_level_data rom mdb0.states st.level_data st.plm_population 0
  let (doors, frontier2) ←
    load_door_list rom st.room_mdb (rom_addr 0x8f mdb0.door_list_ptr) numDoors
      [] st.rooms_to_check
  .ok { rooms_to_check := frontier2.filter fun q => q != p
        room_mdb := (p, { mdb0 with door_list := doors }) :: st.room_mdb
        level_data := ld2
        plm_population := pl2 }

/-- The `while !self.rooms_to_check.is_empty()` loop of `Loader::load`.  The
frontier policy (which element `iter().next()` yields) is unspecified in the
source; the embedding picks the head of the list. -/
def roomLoop (rom : Rom) : Nat → LoaderSt → Except LErr LoaderSt
  | 0, _ => .error .fuel
  | fuel + 1, st =>
    match st.rooms_to_check with
    | [] => .ok st
    | p :: _ => do
      let st2 ← stepRoom rom st p
      roomLoop rom fuel st2

/-- `Loader::load_tileset_table`: `n` u16 pointers starting at `pos`, each to
a 9-byte entry of three u24 pointers in bank `TILESET_ENTRY_BANK`. -/
def load_tileset_table (rom : Rom) : Nat → Nat → Except LErr (List TileSetEntry)
  | _, 0 => .ok []
  | pos, n + 1 => do
    let ptr ← readU16E rom pos
    let ea := rom_addr TILESET_ENTRY_BANK ptr
    let tt ← readU24E rom ea
    let ti ← readU24E rom (ea + 3)
    let pa ← readU24E rom (ea + 6)
    let rest ← load_tileset_table rom (pos + 2) n
    .ok ({ tile_table_ptr := tt, tiles_ptr := ti, palette_ptr := pa } :: rest)

/-- `Loader::get_pixel`: assemble one 4-bit pixel from the four bitplanes of
a 32-byte planar tile. -/
def get_pixel (data : List Nat) (x y : Nat) : Nat :=
  (List.range 4).foldl
    (fun b bit =>
      if data.getD (y * 2 + (bit &&& 0x1) + ((bit >>> 1) * 16)) 0 &&& (1 <<< (7 - x)) ≠ 0
      then b ||| (1 <<< bit) else b) 0

/-- De-planarise one 32-byte tile into packed 4bpp form
(`new_data[y*4 + x/2]`, low nibble = even x). -/
def de_planar_tile (tile : List Nat) : List Nat :=
  (List.range 8).flatMap fun y =>
    (List.range 4).map fun xp =>
      get_pixel tile (2 * xp) y + (get_pixel tile (2 * xp + 1) y <<< 4)

/-- `Loader::de_planar_tiles`: rewrite every full 32-byte tile in place;
trailing bytes beyond the last full tile are untouched. -/
def de_planar_tiles (data : List Nat) : List Nat :=
  let n := data.length / 32
  ((List.range n).flatMap fun t => de_planar_tile ((data.drop (32 * t)).take 32))
    ++ data.drop (32 * n)

/-- `Loader::load_tiles`: decompress at the SNES address and de-planarise,
unless the address is already cached. -/
def load_tiles (rom : Rom) (tiles : List (Nat × Tiles)) (addr : Nat) :
    Except LErr (List (Nat × Tiles)) :=
  if alContains tiles addr then .ok tiles
  else do
    let data ← decompressAt rom (snes_to_rom_addr addr)
    .ok ((addr, ⟨de_planar_tiles data⟩) :: tiles)

/-- `Loader::load_tile_table`: decompress at the SNES address, unless cached. -/
def load_tile_table (rom : Rom) (tables : List (Nat × TileTable)) (addr : Nat) :
    Except LErr (List (Nat × TileTable)) :=
  if alContains tables addr then .ok tables
  else do
    let data ← decompressAt rom (snes_to_rom_addr addr)
    .ok ((addr, ⟨data⟩) :: tables)

/-- The `for entry in tile_sets` loop of `Loader::load`. -/
def load_tile_sets (rom : Rom) :
    List TileSetEntry → List (Nat × Tiles) → List (Nat × TileTable) →
    Except LErr (List (Nat × Tiles) × List (Nat × TileTable))
  | [], ti, tt => .ok (ti, tt)
  | e :: rest, ti, tt => do
    let ti2 ← load_tiles rom ti e.tiles_ptr
    let tt2 ← load_tile_table rom tt e.tile_table_ptr
    load_tile_sets rom rest ti2 tt2

/-- `Loader::load`: the room loop from the seed pointer, then the tileset
table, the per-tileset tiles/tile-tables, and the fixed CRE data. -/
def Loader.load (rom : Rom) : Except LErr SuperMetroidData := do
  let st ← roomLoop rom 0x10001
    { rooms_to_check := [rom_addr_to_snes16 ROOM_MDB_START]
      room_mdb := [], level_data := [], plm_population := [] }
  let tileSets ← load_tileset_table rom TILESET_POINTER_TABLE TILESET_POINTER_TABLE_COUNT
  let (tiles1, tables1) ← load_tile_sets rom tileSets [] []
  let tiles2 ← load_tiles rom tiles1 (rom_addr_to_snes CRE_TILES)
  let tables2 ← load_tile_table rom tables1 (rom_addr_to_snes CRE_TILE_TABLE)
  .ok { room_mdb := st.room_mdb, level_data := st.level_data
        plm_population := st.plm_population, tile_sets := tileSets
        tiles := tiles2, tile_tables := tables2 }

/-- `SuperMetroidData::new`: size check, then `Loader::load`. -/
def SuperMetroidData.new (rom : Rom) : Except LErr SuperMetroidData :=
  if rom.size ≠ 0x300000 then .error .wrongRomSize
  else Loader.load rom

/-! ## Palettes

The `lib.rs` snapshot under `src/` has no palettes cache, but its in-repo
callers require one: `rando/src/main.rs` reads `sm.palettes` and
`graphics.rs` imports `Color`, `Palette` and `PALETTE_ENTRIES` from the
crate root.  The defining code is a revision of `lib.rs` that is not under
`src/`; the definitions below model it from the spec. -/

/-- Modelled from the spec: `Color`, an upshifted BGR5 colour
(`r = (v & 0x1F) << 3; g = ((v >> 5) & 0x1F) << 3; b = ((v >> 10) & 0x1F) << 3`).
The defining `lib.rs` revision is missing from `src/`. -/
structure Color where
  r : Nat
  g : Nat
  b : Nat
deriving DecidableEq, Repr

/-- Modelled from the spec: decode one BGR5 wire u16 into a `Color`. -/
def decodeColor (v : Nat) : Color :=
  { r := (v &&& 0x1f) <<< 3
    g := ((v >>> 5) &&& 0x1f) <<< 3
    b := ((v >>> 10) &&& 0x1f) <<< 3 }

/-- Modelled from the spec: `Palette`, 128 decoded colours. -/
structure Palette where
  colors : List Color
deriving DecidableEq, Repr

/-- Read `n` little-endian u16 words out of a byte list. -/
def readWordList (data : List Nat) (pos : Nat) : Nat → Except LErr (List Nat)
  | 0 => .ok []
  | n + 1 =>
    match listReadU16 data pos with
    | none => .error .shortRead
    | some w => do
      let rest ← readWordList data (pos + 2) n
      .ok (w :: rest)

/-- Modelled from the spec: load one palette — decompress at the SNES
address and decode 128 BGR5 words — unless the address is already cached.
The defining `lib.rs` revision is missing from `src/`. -/
def load_palette (rom : Rom) (pals : List (Nat × Palette)) (addr : Nat) :
    Except LErr (List (Nat × Palette)) :=
  if alContains pals addr then .ok pals
  else do
    let data ← decompressAt rom (snes_to_rom_addr addr)
    let ws ← readWordList data 0 128
    .ok ((addr, ⟨ws.map decodeColor⟩) :: pals)

/-- Modelled from the spec: the per-tileset palette pass of step 5 of the
loader protocol (`ensure caches contain its … palette`). -/
def load_palettes (rom : Rom) :
    List TileSetEntry → List (Nat × Palette) → Except LErr (List (Nat × Palette))
  | [], pals => .ok pals
  | e :: rest, pals => do
    let pals2 ← load_palette rom pals e.palette_ptr
    load_palettes rom rest pals2

/-- The aggregate with the spec-modelled palettes cache attached. -/
structure SuperMetroidFull where
  sm : SuperMetroidData
  palettes : List (Nat × Palette)
deriving DecidableEq, Repr

/-- `load` extended with the spec-modelled palette pass. -/
def load_full (rom : Rom) : Except LErr SuperMetroidFull := do
  let sm ← SuperMetroidData.new rom
  let pals ← load_palettes rom sm.tile_sets []
  .ok { sm := sm, palettes := pals }

/-! ## Concrete test inputs -/

/-- One byte segment of a synthetic ROM: bytes `bytes` starting at `base`. -/
def segByte (base : Nat) (bytes : List Nat) (i : Nat) : Option Nat :=
  if base ≤ i ∧ i < base + bytes.length then some (bytes.getD (i - base) 0) else none

/-- A synthetic ROM from a list of byte segments; unlisted offsets read 0. -/
def romOfSegs (segs : List (Nat × List Nat)) (sz : Nat) : Rom :=
  { data := fun i => ((segs.findSome? fun s => segByte s.1 s.2 i).getD 0), size := sz }

/-- Level data with four blocks: DoorBlocks (bts 0 and 3) at indices 0 and 2,
Air blocks (bts 9 and 5, which must be ignored) at indices 1 and 3. -/
def c6LevelData : List Nat :=
  [0x08, 0x00,
   0x00, 0x90, 0x00, 0x00, 0x00, 0x90, 0x00, 0x00,
   0x00, 0x09, 0x03, 0x05]

/-- The parsed `c6LevelData`. -/
def c6Rd : RoomData :=
  (load_room_data c6LevelData).toOption.getD ⟨[], [], none, 0⟩

/-- A synthetic ROM for exercising `load_door_list` with four slots: the door
list at short-pointer 0x9300 holds slots 0x9400/0x9410/0x9420/0x9430; the
door record at 0x9410 (all zero) has destination 0 and must be dropped. -/
def c6Rom : Rom :=
  romOfSegs
    [(0x79300, [0x00, 0x94, 0x10, 0x94, 0x20, 0x94, 0x30, 0x94]),
     (0x19400, [0xf8, 0x91, 0, 0, 0, 0, 0, 0, 0, 0, 0, 0]),
     (0x19420, [0xaa, 0x92, 0, 0, 0, 0, 0, 0, 0, 0, 0, 0]),
     (0x19430, [0xbb, 0x93, 0, 0, 0, 0, 0, 0, 0, 0, 0, 0])]
    0x300000

/-- Level data with a single Air block (bts 7): no DoorBlock at all. -/
def c10LevelData : List Nat := [0x02, 0x00, 0x00, 0x00, 0x07]

/-- The parsed `c10LevelData`. -/
def c10Rd : RoomData :=
  (load_room_data c10LevelData).toOption.getD ⟨[], [], none, 0⟩

/-- Well-formedness of the loader state, maintained by the room loop: the
frontier and the cache keys are 16-bit values, the frontier is disjoint from
the keys of `room_mdb`, and the keys are distinct. -/
def WFSt (st : LoaderSt) : Prop :=
  (∀ q ∈ st.rooms_to_check, q < 0x10000) ∧
  (∀ q ∈ st.rooms_to_check, alContains st.room_mdb q = false) ∧
  (st.room_mdb.map Prod.fst).Nodup ∧
  (∀ k ∈ st.room_mdb.map Prod.fst, k < 0x10000)

/-- The door invariant of the room loop: every door of every loaded room has
a non-zero destination that is either an already-loaded room or still on the
frontier. -/
def DInv (st : LoaderSt) : Prop :=
  ∀ pm ∈ st.room_mdb, ∀ d ∈ pm.2.door_list,
    d.dest_room_ptr ≠ 0 ∧
    (alContains st.room_mdb d.dest_room_ptr = true ∨
     d.dest_room_ptr ∈ st.rooms_to_check)

/-! ## Helper lemmas -/

lemma and_mask_7fff (n : Nat) : n &&& 0x7fff = n % 0x8000 := by
  have := Nat.and_pow_two_sub_one_eq_mod n 15
  norm_num at this
  exact this

lemma and_mask_ffff (n : Nat) : n &&& 0xffff = n % 0x10000 := by
  have := Nat.and_pow_two_sub_one_eq_mod n 16
  norm_num at this
  exact this

lemma and_mask_3ff (n : Nat) : n &&& 0x3ff = n % 0x400 := by
  have := Nat.and_pow_two_sub_one_eq_mod n 10
  norm_num at this
  exact this

lemma and_mask_f (n : Nat) : n &&& 0xf = n % 0x10 := by
  have := Nat.and_pow_two_sub_one_eq_mod n 4
  norm_num at this
  exact this

/-- Invert a successful `Except` bind. -/
lemma bind_ok {α β : Type _} {x : Except LErr α} {f : α → Except LErr β} {b : β}
    (h : x >>= f = .ok b) : ∃ a, x = .ok a ∧ f a = .ok b := by
  cases x with
  | ok a => exact ⟨a, rfl, h⟩
  | error e => simp [Bind.bind, Except.bind] at h

/-- A bind is no worse than its parts: it returns the error `bad` only if one
of them does. -/
lemma bind_ne_error {α β : Type _} {x : Except LErr α} {f : α → Except LErr β} {bad : LErr}
    (h1 : x ≠ .error bad) (h2 : ∀ a, x = .ok a → f a ≠ .error bad) :
    x >>= f ≠ .error bad := by
  cases x with
  | ok a => exact h2 a rfl
  | error e =>
    simpa [Bind.bind, Except.bind] using fun hc => h1 (by rw [hc])

/-- A minimal conforming synthetic ROM: one seed room (Default state, one
door slot whose door leads back to the seed room), a level-data blob, an
empty PLM list, 29 tileset pointers all to one entry, and compressed
tiles/tile-table/palette blobs including the fixed CRE data. -/
def romW : Rom :=
  romOfSegs
    [(0x791f8,
      -- 11-byte header (w = h = 1, door list 0x9300), Default condition,
      -- 26-byte state data (level data 0x808100, PLM list 0x9400)
      [0, 0, 0, 0, 1, 1, 0, 0, 0, 0x00, 0x93,
       0xe6, 0xe5,
       0x00, 0x81, 0x80, 0, 0, 0, 0, 0, 0, 0, 0, 0, 0, 0, 0, 0,
       0, 0, 0, 0, 0x00, 0x94, 0, 0, 0, 0]),
     -- level data: DirectCopy of [02 00 00 00 00]: one Air block, bts 0
     (0x100, [0x04, 0x02, 0x00, 0x00, 0x00, 0x00, 0xff]),
     -- door list (one slot) and the door record: destination = seed room
     (0x79300, [0x00, 0x95]),
     (0x19500, [0xf8, 0x91, 0, 0, 0, 0, 0, 0, 0, 0, 0, 0]),
     -- tileset pointer table: 29 pointers, all to the entry at 0x9600
     (0x7e7a7, (List.range 29).flatMap fun _ => [0x00, 0x96]),
     (0x79600, [0x00, 0x82, 0x80, 0x10, 0x82, 0x80, 0x20, 0x82, 0x80]),
     -- tile table, tiles and palette blobs (palette: 256 bytes of 0x12)
     (0x200, [0x00, 0xab, 0xff]),
     (0x210, [0x00, 0xcd, 0xff]),
     (0x220, [0xe4, 0xff, 0x12, 0xff]),
     -- CRE tiles and CRE tile table
     (0x1c8000, [0x00, 0xee, 0xff]),
     (0x1ca09d, [0x00, 0xdc, 0xff])]
    0x300000

/-- The aggregate loaded from `romW`. -/
def smW : SuperMetroidData :=
  (SuperMetroidData.new romW).toOption.getD ⟨[], [], [], [], [], []⟩

/-- The palette-extended aggregate loaded from `romW`. -/
def smpW : SuperMetroidFull :=
  (load_full romW).toOption.getD ⟨⟨[], [], [], [], [], []⟩, []⟩

/-! ## C9 : address-map laws -/

/-- C9: for every offset `0x8000 ≤ o ≤ 0xFFFF`, converting the banked pointer
`(0x8F, o)` to a ROM offset and back to a 16-bit short pointer returns `o`;
and `rom_addr 0x8F 0x93FE = 0x793FE`. -/
theorem c9_address_map (o : Nat) (h1 : 0x8000 ≤ o) (h2 : o ≤ 0xffff) :
    rom_addr_to_snes16 (rom_addr 0x8f o) = o ∧ rom_addr 0x8f 0x93fe = 0x793fe := by
  constructor
  · unfold rom_addr rom_addr_to_snes16
    rw [and_mask_7fff]
    have hs : (0x8f - 0x80 : Nat) <<< 15 = 0x78000 := by decide
    rw [hs]
    omega
  · decide

/-- Witness for C9 at `o = 0xABCD`. -/
theorem c9_address_map_witness :
    0x8000 ≤ 0xabcd ∧ 0xabcd ≤ 0xffff ∧
    (rom_addr_to_snes16 (rom_addr 0x8f 0xabcd) = 0xabcd ∧
     rom_addr 0x8f 0x93fe = 0x793fe) :=
  ⟨by decide, by decide, c9_address_map 0xabcd (by decide) (by decide)⟩

/-! ## C4 : block-info decoding -/

/-- C4 counterexample: decoding the wire u16 `0xB4A5` yields
`y_flip = false`, not `true` as claimed (`0xB4A5 &&& 0x800 = 0`). -/
theorem c4_counterexample :
    (load_block_info 0xb4a5).toOption.map (fun bi => bi.y_flip) ≠ some true := by
  decide

/-- C4 (amended): for every wire u16 `v` the decoder yields
`tile_index = v &&& 0x3FF`, `x_flip` = bit 10 of `v`, `y_flip` = bit 11 of
`v`, and type = the high 4 bits of `v`; decoding `v = 0xB4A5` yields type
`0xB`, `x_flip = true`, `y_flip = false` and `tile_index = 0x0A5`. -/
theorem c4_block_info_decode (v : Nat) (h : v < 0x10000) :
    load_block_info v = .ok
      { ty := ⟨v >>> 12⟩
        x_flip := v.testBit 10
        y_flip := v.testBit 11
        tile_index := v &&& 0x3ff } ∧
    load_block_info 0xb4a5 =
      .ok { ty := ⟨0xb⟩, x_flip := true, y_flip := false, tile_index := 0xa5 } := by
  constructor
  · have h12 : (v >>> 12) &&& 0xf = v >>> 12 := by
      rw [and_mask_f]
      apply Nat.mod_eq_of_lt
      rw [Nat.shiftRight_eq_div_pow]
      omega
    have h10 : (decide (v &&& 0x400 = 0x400)) = v.testBit 10 := by
      have ha := Nat.and_two_pow v 10
      norm_num at ha
      cases htb : v.testBit 10 <;> simp [htb] at ha <;> simp [ha]
    have h11 : (decide (v &&& 0x800 = 0x800)) = v.testBit 11 := by
      have ha := Nat.and_two_pow v 11
      norm_num at ha
      cases htb : v.testBit 11 <;> simp [htb] at ha <;> simp [ha]
    have hle : v >>> 12 ≤ 15 := by
      rw [Nat.shiftRight_eq_div_pow]
      omega
    simp [load_block_info, BlockType.fromU8, Nat.and_le_right, h12, h10, h11, hle]
  · decide

/-- Witness for C4 at `v = 0xB4A5`. -/
theorem c4_block_info_decode_witness :
    0xb4a5 < 0x10000 ∧
    (load_block_info 0xb4a5 = .ok
      { ty := ⟨0xb4a5 >>> 12⟩
        x_flip := Nat.testBit 0xb4a5 10
        y_flip := Nat.testBit 0xb4a5 11
        tile_index := 0xb4a5 &&& 0x3ff } ∧
     load_block_info 0xb4a5 =
      .ok { ty := ⟨0xb⟩, x_flip := true, y_flip := false, tile_index := 0xa5 }) :=
  ⟨by decide, c4_block_info_decode 0xb4a5 (by decide)⟩

/-! ## C2 : decompressor vectors -/

/-- C2: the ten decompressor input/output laws of the specification. -/
theorem c2_decompress_vectors :
    decompress [0x02, 0x01, 0x02, 0x03, 0xff] = .ok [0x01, 0x02, 0x03] ∧
    decompress [0x22, 0x01, 0xff] = .ok [0x01, 0x01, 0x01] ∧
    decompress [0x43, 0x55, 0xaa, 0xff] = .ok [0x55, 0xaa, 0x55, 0xaa] ∧
    decompress [0x44, 0x55, 0xaa, 0xff] = .ok [0x55, 0xaa, 0x55, 0xaa, 0x55] ∧
    decompress [0x64, 0x01, 0xff] = .ok [0x01, 0x02, 0x03, 0x04, 0x05] ∧
    decompress [0x64, 0xfe, 0xff] = .ok [0xfe, 0xff, 0x00, 0x01, 0x02] ∧
    decompress [0x64, 0x01, 0x82, 0x01, 0x00, 0xff] =
      .ok [0x01, 0x02, 0x03, 0x04, 0x05, 0x02, 0x03, 0x04] ∧
    decompress [0x64, 0x01, 0xa2, 0x01, 0x00, 0xff] =
      .ok [0x01, 0x02, 0x03, 0x04, 0x05, 0xfd, 0xfc, 0xfb] ∧
    decompress [0x64, 0x01, 0xc2, 0x03, 0xff] =
      .ok [0x01, 0x02, 0x03, 0x04, 0x05, 0x03, 0x04, 0x05] ∧
    decompress [0x64, 0x01, 0xfc, 0x02, 0x03, 0xff] =
      .ok [0x01, 0x02, 0x03, 0x04, 0x05, 0xfc, 0xfb, 0xfa] := by
  decide

/-! ## C7 / C10 / C6 : `load_room_data` -/

lemma ok_bind {α β : Type _} (a : α) (f : α → Except LErr β) :
    (Except.ok a : Except LErr α) >>= f = f a := rfl

lemma load_block_info_ok (w : Nat) : ∃ bi, load_block_info w = .ok bi := by
  unfold load_block_info BlockType.fromU8
  rw [if_pos Nat.and_le_right]
  exact ⟨_, rfl⟩

lemma readBlockList_ok (data : List Nat) :
    ∀ n pos, pos + 2 * n ≤ data.length →
      ∃ l, readBlockList data pos n = .ok l ∧ l.length = n := by
  intro n
  induction n with
  | zero => exact fun pos _ => ⟨[], rfl, rfl⟩
  | succ m ih =>
    intro pos hle
    have h0 : pos < data.length := by omega
    have h1 : pos + 1 < data.length := by omega
    have hw : listReadU16 data pos = some (data[pos] + (data[pos + 1] <<< 8)) := by
      simp [listReadU16, List.getElem?_eq_getElem h0, List.getElem?_eq_getElem h1]
    obtain ⟨bi, hbi⟩ := load_block_info_ok (data[pos] + (data[pos + 1] <<< 8))
    obtain ⟨rest, hrest, hlen⟩ := ih (pos + 2) (by omega)
    refine ⟨bi :: rest, ?_, by simp [hlen]⟩
    simp [readBlockList, hw, hbi, hrest, ok_bind]

lemma readByteList_ok (data : List Nat) :
    ∀ n pos, pos + n ≤ data.length →
      ∃ l, readByteList data pos n = .ok l ∧ l.length = n := by
  intro n
  induction n with
  | zero => exact fun pos _ => ⟨[], rfl, rfl⟩
  | succ m ih =>
    intro pos hle
    have h0 : pos < data.length := by omega
    obtain ⟨rest, hrest, hlen⟩ := ih (pos + 1) (by omega)
    refine ⟨data[pos] :: rest, ?_, by simp [hlen]⟩
    simp [readByteList, List.getElem?_eq_getElem h0, hrest, ok_bind]

/-- C7: with at least the 2-byte size word present, the room-data parser
fails with `wrongSizedRoomData` exactly when the remaining length is neither
`3 * num_blocks` nor `5 * num_blocks`; on success `layer_2` is present
exactly when it is `5 * num_blocks`; and no other error can occur. -/
theorem c7_room_data_errors (data : List Nat) (h2 : 2 ≤ data.length) :
    (load_room_data data = .error .wrongSizedRoomData ↔
      (data.length - 2 ≠ ((data.getD 0 0 + (data.getD 1 0 <<< 8)) / 2) * 3 ∧
       data.length - 2 ≠ ((data.getD 0 0 + (data.getD 1 0 <<< 8)) / 2) * 5)) ∧
    (∀ rd, load_room_data data = .ok rd →
      (rd.layer_2.isSome ↔
        data.length - 2 = ((data.getD 0 0 + (data.getD 1 0 <<< 8)) / 2) * 5)) ∧
    (∀ e, load_room_data data = .error e → e = .wrongSizedRoomData) := by
  rcases data with _ | ⟨a, _ | ⟨b, t⟩⟩
  · simp at h2
  · simp at h2
  · have hw : listReadU16 (a :: b :: t) 0 = some (a + (b <<< 8)) := rfl
    have hgd0 : (a :: b :: t).getD 0 0 = a := rfl
    have hgd1 : (a :: b :: t).getD 1 0 = b := rfl
    have hlen : (a :: b :: t).length - 2 = t.length := by simp
    rw [hgd0, hgd1, hlen]
    have hlen2 : t.length + 1 + 1 - 2 = t.length := by omega
    set n := (a + (b <<< 8)) / 2 with hn
    by_cases hsz : t.length ≠ n * 3 ∧ t.length ≠ n * 5
    · have hld : load_room_data (a :: b :: t) = .error .wrongSizedRoomData := by
        simp only [load_room_data, hw, ok_bind, List.length_cons, hlen2, ← hn]
        rw [if_pos hsz]
      refine ⟨by simp [hld, hsz.1, hsz.2], fun rd hrd => by simp [hld] at hrd,
              fun e he => ?_⟩
      rw [hld] at he
      exact (Except.error.inj he).symm
    · push_neg at hsz
      have hcase : t.length = n * 3 ∨ t.length = n * 5 := by
        by_cases h3 : t.length = n * 3
        · exact Or.inl h3
        · exact Or.inr (hsz h3)
      obtain ⟨l1, hl1, hl1len⟩ := readBlockList_ok (a :: b :: t) n 2
        (by simp only [List.length_cons]; omega)
      obtain ⟨lb, hlb, hlblen⟩ := readByteList_ok (a :: b :: t) n (2 + 2 * n)
        (by simp only [List.length_cons]; omega)
      have hnsz : ¬(t.length ≠ n * 3 ∧ t.length ≠ n * 5) := by tauto
      by_cases h5 : t.length = n * 5
      · obtain ⟨l2, hl2, hl2len⟩ :=
          readBlockList_ok (a :: b :: t) n (2 + 3 * n)
            (by simp only [List.length_cons]; omega)
        have hld : load_room_data (a :: b :: t) =
            .ok { layer_1 := l1, bts := lb, layer_2 := some l2
                  num_doors := maxDoorIndex l1 lb + 1 } := by
          simp only [load_room_data, hw, ok_bind, List.length_cons, hlen2, ← hn]
          rw [if_neg hnsz]
          simp only [hl1, ok_bind, hlb]
          rw [if_pos h5]
          simp only [hl2, ok_bind]
        refine ⟨by simp [hld, h5], fun rd hrd => ?_, fun e he => by simp [hld] at he⟩
        rw [hld] at hrd
        rw [← Except.ok.inj hrd]
        simp [h5]
      · have h3 : t.length = n * 3 := by tauto
        have hld : load_room_data (a :: b :: t) =
            .ok { layer_1 := l1, bts := lb, layer_2 := none
                  num_doors := maxDoorIndex l1 lb + 1 } := by
          simp only [load_room_data, hw, ok_bind, List.length_cons, hlen2, ← hn]
          rw [if_neg hnsz]
          simp only [hl1, ok_bind, hlb]
          rw [if_neg h5]
        refine ⟨by simp [hld, h3, h5], fun rd hrd => ?_, fun e he => by simp [hld] at he⟩
        rw [hld] at hrd
        rw [← Except.ok.inj hrd]
        simp [h5]

/-- Witness for C7 at the concrete level data `c10LevelData`. -/
theorem c7_room_data_errors_witness :
    2 ≤ c10LevelData.length ∧
    ((load_room_data c10LevelData = .error .wrongSizedRoomData ↔
      (c10LevelData.length - 2 ≠
        ((c10LevelData.getD 0 0 + (c10LevelData.getD 1 0 <<< 8)) / 2) * 3 ∧
       c10LevelData.length - 2 ≠
        ((c10LevelData.getD 0 0 + (c10LevelData.getD 1 0 <<< 8)) / 2) * 5)) ∧
     (∀ rd, load_room_data c10LevelData = .ok rd →
       (rd.layer_2.isSome ↔
         c10LevelData.length - 2 =
          ((c10LevelData.getD 0 0 + (c10LevelData.getD 1 0 <<< 8)) / 2) * 5)) ∧
     (∀ e, load_room_data c10LevelData = .error e → e = .wrongSizedRoomData)) :=
  ⟨by decide, c7_room_data_errors c10LevelData (by decide)⟩

lemma doorFold_no_door (l : List (BlockInfo × Nat)) :
    ∀ acc, (∀ p ∈ l, p.1.ty ≠ BlockType.doorBlock) →
      l.foldl (fun m p => if p.1.ty = BlockType.doorBlock then max m p.2 else m) acc
        = acc := by
  induction l with
  | nil => intro acc _; rfl
  | cons q tl ih =>
    intro acc h
    have hq : q.1.ty ≠ BlockType.doorBlock := h q (List.mem_cons_self _ _)
    simp only [List.foldl_cons, if_neg hq]
    exact ih acc fun p hp => h p (List.mem_cons_of_mem _ hp)

lemma foldl_max_filterMap (l : List (BlockInfo × Nat)) :
    ∀ acc, l.foldl (fun m p => if p.1.ty = BlockType.doorBlock then max m p.2 else m) acc
      = max acc ((l.filterMap fun p =>
          if p.1.ty = BlockType.doorBlock then some p.2 else none).foldr max 0) := by
  induction l with
  | nil => intro acc; simp
  | cons q tl ih =>
    intro acc
    by_cases hq : q.1.ty = BlockType.doorBlock
    · simp only [List.foldl_cons, List.filterMap_cons, if_pos hq, List.foldr_cons]
      rw [ih, Nat.max_assoc]
    · simp only [List.foldl_cons, List.filterMap_cons, if_neg hq]
      exact ih acc

lemma load_room_data_num_doors (data : List Nat) (rd : RoomData)
    (h : load_room_data data = .ok rd) :
    rd.num_doors = maxDoorIndex rd.layer_1 rd.bts + 1 := by
  cases hw : listReadU16 data 0 with
  | none => simp [load_room_data, hw, Bind.bind, Except.bind] at h
  | some w =>
    simp only [load_room_data, hw, ok_bind] at h
    by_cases hsz : data.length - 2 ≠ w / 2 * 3 ∧ data.length - 2 ≠ w / 2 * 5
    · rw [if_pos hsz] at h
      simp at h
    · rw [if_neg hsz] at h
      obtain ⟨l1, hl1, h⟩ := bind_ok h
      obtain ⟨lb, hlb, h⟩ := bind_ok h
      by_cases h5 : data.length - 2 = w / 2 * 5
      · rw [if_pos h5] at h
        obtain ⟨l2, hl2, h⟩ := bind_ok h
        rw [← Except.ok.inj h]
      · rw [if_neg h5] at h
        rw [← Except.ok.inj h]

/-- C10: a successfully parsed level data always has `num_doors ≥ 1`, and
exactly 1 when `layer_1` contains no `DoorBlock` at all, so the loader still
reads one door-list slot for such a room. -/
theorem c10_no_door_num_doors :
    (∀ data rd, load_room_data data = .ok rd → 1 ≤ rd.num_doors) ∧
    (∀ data rd, load_room_data data = .ok rd →
      (∀ bi ∈ rd.layer_1, bi.ty ≠ BlockType.doorBlock) → rd.num_doors = 1) := by
  constructor
  · intro data rd h
    rw [load_room_data_num_doors data rd h]
    omega
  · intro data rd h hnd
    rw [load_room_data_num_doors data rd h]
    unfold maxDoorIndex
    rw [doorFold_no_door]
    intro p hp
    exact hnd p.1 (List.of_mem_zip (by simpa using hp)).1

/-- Witness for C10 at the concrete level data `c10LevelData`. -/
theorem c10_no_door_num_doors_witness :
    load_room_data c10LevelData = .ok c10Rd ∧
    (∀ bi ∈ c10Rd.layer_1, bi.ty ≠ BlockType.doorBlock) ∧
    c10Rd.num_doors = 1 := by
  have hEq : load_room_data c10LevelData = .ok c10Rd := by decide
  have hnd : ∀ bi ∈ c10Rd.layer_1, bi.ty ≠ BlockType.doorBlock := by decide
  exact ⟨hEq, hnd, c10_no_door_num_doors.2 c10LevelData c10Rd hEq hnd⟩

/-- C6: `num_doors` is one plus the maximum bts value over the `DoorBlock`
positions of `layer_1`; the concrete level data with DoorBlocks at bts 0 and
3 yields `num_doors = 4`; the loader then parses exactly four door slots and
drops the slot whose destination is 0. -/
theorem c6_num_doors_law :
    (∀ data rd, load_room_data data = .ok rd →
      rd.num_doors =
        ((rd.layer_1.zip rd.bts).filterMap fun p =>
          if p.1.ty = BlockType.doorBlock then some p.2 else none).foldr max 0 + 1) ∧
    (load_room_data c6LevelData).map (fun rd => rd.num_doors) = .ok 4 ∧
    (load_door_list c6Rom [] (rom_addr 0x8f 0x9300) 4 [] []).map
        (fun r => (r.1.map fun d => d.dest_room_ptr, r.2)) =
      .ok ([0x91f8, 0x92aa, 0x93bb], [0x91f8, 0x92aa, 0x93bb]) := by
  refine ⟨?_, by decide, by decide⟩
  intro data rd h
  rw [load_room_data_num_doors data rd h]
  unfold maxDoorIndex
  rw [foldl_max_filterMap]
  simp

/-- Witness for C6 at the concrete level data `c6LevelData`. -/
theorem c6_num_doors_law_witness :
    load_room_data c6LevelData = .ok c6Rd ∧
    c6Rd.num_doors =
      ((c6Rd.layer_1.zip c6Rd.bts).filterMap fun p =>
        if p.1.ty = BlockType.doorBlock then some p.2 else none).foldr max 0 + 1 := by
  have hEq : load_room_data c6LevelData = .ok c6Rd := by decide
  exact ⟨hEq, c6_num_doors_law.1 c6LevelData c6Rd hEq⟩

/-! ## C5 / C8 : decompressor behaviour -/

lemma bind_error_of {α β : Type _} {x : Except LErr α} {f : α → Except LErr β}
    (hf : ∀ a, ∃ e, f a = .error e) : ∃ e, x >>= f = .error e := by
  cases x with
  | error e => exact ⟨e, rfl⟩
  | ok a => exact hf a

lemma readByteE_ne_fuel (rom : Rom) (pos : Nat) : readByteE rom pos ≠ .error .fuel := by
  unfold readByteE
  cases rom.byte pos <;> simp

lemma readU16E_ne_fuel (rom : Rom) (pos : Nat) : readU16E rom pos ≠ .error .fuel := by
  unfold readU16E
  refine bind_ne_error (readByteE_ne_fuel rom pos) fun a _ => ?_
  refine bind_ne_error (readByteE_ne_fuel rom (pos + 1)) fun b _ => ?_
  simp

lemma readU24E_ne_fuel (rom : Rom) (pos : Nat) : readU24E rom pos ≠ .error .fuel := by
  unfold readU24E
  refine bind_ne_error (readByteE_ne_fuel rom pos) fun a _ => ?_
  refine bind_ne_error (readByteE_ne_fuel rom (pos + 1)) fun b _ => ?_
  refine bind_ne_error (readByteE_ne_fuel rom (pos + 2)) fun c _ => ?_
  simp

lemma readBytes_ne_fuel (rom : Rom) : ∀ n pos, readBytes rom pos n ≠ .error .fuel := by
  intro n
  induction n with
  | zero => intro pos; simp [readBytes]
  | succ m ih =>
    intro pos
    unfold readBytes
    refine bind_ne_error (readByteE_ne_fuel rom pos) fun a _ => ?_
    refine bind_ne_error (ih (pos + 1)) fun rest _ => ?_
    simp

lemma copyFrom_ne_fuel : ∀ n out addr xorF, copyFrom out addr xorF n ≠ .error .fuel := by
  intro n
  induction n with
  | zero => intro out addr xorF; simp [copyFrom]
  | succ m ih =>
    intro out addr xorF
    unfold copyFrom
    cases out.get? addr with
    | none => simp
    | some v => simpa using ih _ _ xorF

lemma byte_lt_size {rom : Rom} {pos b : Nat} (h : rom.byte pos = some b) :
    pos < rom.size := by
  unfold Rom.byte at h
  by_cases hlt : pos < rom.size
  · exact hlt
  · rw [if_neg hlt] at h
    cases h

/-- Fuel sufficiency for the decompression loop: any fuel exceeding the
number of unread input bytes is never exhausted. -/
lemma dgo_no_fuel (rom : Rom) :
    ∀ fuel pos out, rom.size - pos < fuel → dgo rom fuel pos out ≠ .error .fuel := by
  intro fuel
  induction fuel with
  | zero => intro pos out h; omega
  | succ f ih =>
    intro pos out h
    cases hby : rom.byte pos with
    | none => simp [dgo, hby]
    | some b =>
      have hpos : pos < rom.size := byte_lt_size hby
      by_cases hff : b = 0xff
      · simp [dgo, hby, hff]
      · simp only [dgo, hby]
        rw [if_neg hff]
        by_cases hext : b >>> 5 = 7
        · rw [if_pos hext]
          cases hby2 : rom.byte (pos + 1) with
          | none => simp
          | some s =>
            set op := (b >>> 2) &&& 0x7 with hop
            have hople : op ≤ 7 := Nat.and_le_right
            interval_cases op <;>
            · first
              | (refine bind_ne_error (readBytes_ne_fuel rom _ _) fun a _ => ?_
                 exact ih _ _ (by omega))
              | (refine bind_ne_error (readByteE_ne_fuel rom _) fun a _ => ?_
                 exact ih _ _ (by omega))
              | (refine bind_ne_error (readByteE_ne_fuel rom _) fun a _ => ?_
                 refine bind_ne_error (readByteE_ne_fuel rom _) fun a2 _ => ?_
                 exact ih _ _ (by omega))
              | (refine bind_ne_error (readU16E_ne_fuel rom _) fun a _ => ?_
                 refine bind_ne_error (copyFrom_ne_fuel _ _ _ _) fun o2 _ => ?_
                 exact ih _ _ (by omega))
              | (refine bind_ne_error (readByteE_ne_fuel rom _) fun a _ => ?_
                 by_cases hd : a ≤ out.length
                 · rw [if_pos hd]
                   refine bind_ne_error (copyFrom_ne_fuel _ _ _ _) fun o2 _ => ?_
                   exact ih _ _ (by omega)
                 · rw [if_neg hd]
                   simp)
        · rw [if_neg hext]
          set op := b >>> 5 with hop
          have hople : op ≤ 7 := by
            have hb : rom.data pos % 256 = b := by
              unfold Rom.byte at hby
              rw [if_pos hpos] at hby
              exact Option.some.inj hby
            have h256 : b < 256 := by
              rw [← hb]
              exact Nat.mod_lt _ (by omega)
            rw [hop, Nat.shiftRight_eq_div_pow]
            omega
          interval_cases op <;>
          · first
            | (refine bind_ne_error (readBytes_ne_fuel rom _ _) fun a _ => ?_
               exact ih _ _ (by omega))
            | (refine bind_ne_error (readByteE_ne_fuel rom _) fun a _ => ?_
               exact ih _ _ (by omega))
            | (refine bind_ne_error (readByteE_ne_fuel rom _) fun a _ => ?_
               refine bind_ne_error (readByteE_ne_fuel rom _) fun a2 _ => ?_
               exact ih _ _ (by omega))
            | (refine bind_ne_error (readU16E_ne_fuel rom _) fun a _ => ?_
               refine bind_ne_error (copyFrom_ne_fuel _ _ _ _) fun o2 _ => ?_
               exact ih _ _ (by omega))
            | (refine bind_ne_error (readByteE_ne_fuel rom _) fun a _ => ?_
               by_cases hd : a ≤ out.length
               · rw [if_pos hd]
                 refine bind_ne_error (copyFrom_ne_fuel _ _ _ _) fun o2 _ => ?_
                 exact ih _ _ (by omega)
               · rw [if_neg hd]
                 simp)

/-- On a byte input that contains no 0xFF at all, the decompression loop can
never stop successfully: any amount of fuel yields some error. -/
lemma dgo_no_terminator (l : List Nat) (hb : ∀ x ∈ l, x < 256)
    (hf : ∀ x ∈ l, x ≠ 0xff) :
    ∀ fuel pos out, ∃ e, dgo (Rom.ofList l) fuel pos out = .error e := by
  intro fuel
  induction fuel with
  | zero => exact fun pos out => ⟨.fuel, rfl⟩
  | succ f ih =>
    intro pos out
    cases hby : (Rom.ofList l).byte pos with
    | none => exact ⟨.shortRead, by simp [dgo, hby]⟩
    | some b =>
      have hpos : pos < (Rom.ofList l).size := byte_lt_size hby
      have hlen : pos < l.length := hpos
      have hbeq : l.getD pos 0 % 256 = b := by
        unfold Rom.byte Rom.ofList at hby
        rw [if_pos hlen] at hby
        exact Option.some.inj hby
      have hmem : b ∈ l := by
        have hgd : l.getD pos 0 = l[pos] := List.getD_eq_getElem l 0 hlen
        have hmem0 : l[pos] ∈ l := List.getElem_mem hlen
        rw [hgd, Nat.mod_eq_of_lt (hb _ hmem0)] at hbeq
        rw [← hbeq]
        exact hmem0
      have hbne : b ≠ 0xff := hf b hmem
      simp only [dgo, hby]
      rw [if_neg hbne]
      by_cases hext : b >>> 5 = 7
      · rw [if_pos hext]
        cases hby2 : (Rom.ofList l).byte (pos + 1) with
        | none => exact ⟨.shortRead, by simp⟩
        | some s =>
          set op := (b >>> 2) &&& 0x7 with hop
          have hople : op ≤ 7 := Nat.and_le_right
          interval_cases op <;>
          · first
            | (refine bind_error_of fun a => ?_
               exact ih _ _)
            | (refine bind_error_of fun a => ?_
               refine bind_error_of fun a2 => ?_
               exact ih _ _)
            | (refine bind_error_of fun a => ?_
               by_cases hd : a ≤ out.length
               · rw [if_pos hd]
                 refine bind_error_of fun o2 => ?_
                 exact ih _ _
               · exact ⟨_, by rw [if_neg hd]⟩)
      · rw [if_neg hext]
        set op := b >>> 5 with hop
        have hople : op ≤ 7 := by
          have h256 : b < 256 := by
            rw [← hbeq]
            exact Nat.mod_lt _ (by omega)
          rw [hop, Nat.shiftRight_eq_div_pow]
          omega
        interval_cases op <;>
        · first
          | (refine bind_error_of fun a => ?_
             exact ih _ _)
          | (refine bind_error_of fun a => ?_
             refine bind_error_of fun a2 => ?_
             exact ih _ _)
          | (refine bind_error_of fun a => ?_
             by_cases hd : a ≤ out.length
             · rw [if_pos hd]
               refine bind_error_of fun o2 => ?_
               exact ih _ _
             · exact ⟨_, by rw [if_neg hd]⟩)

/-- C5 counterexample: the input `80 00 00 FF` is a LibraryCopy of one byte
from output address 0 while the output is still empty (`addr + len = 1`
exceeds the output length 0).  The Rust code evaluates `out[0]` on an empty
`Vec` and panics — modelled by `LErr.panicIndex` — instead of returning an
error value as the claim states. -/
theorem c5_counterexample :
    decompress [0x80, 0x00, 0x00, 0xff] = .error .panicIndex := by decide

/-- C5 (amended): `decompress` is total; on any byte input that never
contains the 0xFF terminator it returns an error value; but an out-of-range
back-reference is an index panic (`panicIndex` / `panicSubOverflow`), not a
returned error, and a LibraryCopy whose start address is in range succeeds
even when `address + length` exceeds the current output length (the copy
reads its own freshly written bytes). -/
theorem c5_decompress_errors (l : List Nat) (hb : ∀ x ∈ l, x < 256)
    (hf : ∀ x ∈ l, x ≠ 0xff) :
    (∃ e, decompress l = .error e) ∧
    decompress [0x22, 0x01, 0x81, 0x02, 0x00, 0xff] =
      .ok [0x01, 0x01, 0x01, 0x01, 0x01] :=
  ⟨dgo_no_terminator l hb hf _ 0 [], by decide⟩

/-- Witness for C5 at the input `[0x02]` (a DirectCopy command cut short). -/
theorem c5_decompress_errors_witness :
    (∀ x ∈ [0x02], x < 256) ∧ (∀ x ∈ [0x02], x ≠ 0xff) ∧
    ((∃ e, decompress [0x02] = .error e) ∧
     decompress [0x22, 0x01, 0x81, 0x02, 0x00, 0xff] =
       .ok [0x01, 0x01, 0x01, 0x01, 0x01]) :=
  ⟨by decide, by decide, c5_decompress_errors [0x02] (by decide) (by decide)⟩

/-! ## Loader lemmas: fuel is never exhausted -/

lemma decompressAt_ne_fuel (rom : Rom) (start : Nat) :
    decompressAt rom start ≠ .error .fuel :=
  dgo_no_fuel rom (rom.size + 1) start [] (by omega)

lemma load_block_info_ne_fuel (w : Nat) : load_block_info w ≠ .error .fuel := by
  obtain ⟨bi, hbi⟩ := load_block_info_ok w
  simp [hbi]

lemma readBlockList_ne_fuel (data : List Nat) :
    ∀ n pos, readBlockList data pos n ≠ .error .fuel := by
  intro n
  induction n with
  | zero => intro pos; simp [readBlockList]
  | succ m ih =>
    intro pos
    unfold readBlockList
    cases listReadU16 data pos with
    | none => simp
    | some w =>
      refine bind_ne_error (load_block_info_ne_fuel w) fun bi _ => ?_
      refine bind_ne_error (ih (pos + 2)) fun rest _ => ?_
      simp

lemma readByteList_ne_fuel (data : List Nat) :
    ∀ n pos, readByteList data pos n ≠ .error .fuel := by
  intro n
  induction n with
  | zero => intro pos; simp [readByteList]
  | succ m ih =>
    intro pos
    unfold readByteList
    cases data.get? pos with
    | none => simp
    | some b =>
      refine bind_ne_error (ih (pos + 1)) fun rest _ => ?_
      simp

lemma readWordList_ne_fuel (data : List Nat) :
    ∀ n pos, readWordList data pos n ≠ .error .fuel := by
  intro n
  induction n with
  | zero => intro pos; simp [readWordList]
  | succ m ih =>
    intro pos
    unfold readWordList
    cases listReadU16 data pos with
    | none => simp
    | some w =>
      refine bind_ne_error (ih (pos + 2)) fun rest _ => ?_
      simp

lemma load_room_data_ne_fuel (data : List Nat) :
    load_room_data data ≠ .error .fuel := by
  cases hw : listReadU16 data 0 with
  | none => simp [load_room_data, hw, Bind.bind, Except.bind]
  | some w =>
    simp only [load_room_data, hw, ok_bind]
    by_cases hsz : data.length - 2 ≠ w / 2 * 3 ∧ data.length - 2 ≠ w / 2 * 5
    · rw [if_pos hsz]; simp
    · rw [if_neg hsz]
      refine bind_ne_error (readBlockList_ne_fuel data _ 2) fun l1 _ => ?_
      refine bind_ne_error (readByteList_ne_fuel data _ _) fun lb _ => ?_
      by_cases h5 : data.length - 2 = w / 2 * 5
      · rw [if_pos h5]
        refine bind_ne_error (readBlockList_ne_fuel data _ _) fun l2 _ => ?_
        simp
      · rw [if_neg h5]
        simp

lemma readByteE_ok_lt {rom : Rom} {pos b : Nat} (h : readByteE rom pos = .ok b) :
    pos < rom.size := by
  unfold readByteE at h
  cases hby : rom.byte pos with
  | none => rw [hby] at h; cases h
  | some v => exact byte_lt_size hby

lemma readByteE_ok_lt256 {rom : Rom} {pos b : Nat} (h : readByteE rom pos = .ok b) :
    b < 256 := by
  unfold readByteE at h
  cases hby : rom.byte pos with
  | none => rw [hby] at h; cases h
  | some v =>
    rw [hby] at h
    unfold Rom.byte at hby
    by_cases hlt : pos < rom.size
    · rw [if_pos hlt] at hby
      have hv : rom.data pos % 256 = v := Option.some.inj hby
      have := Nat.mod_lt (rom.data pos) (show 0 < 256 by omega)
      rw [← Except.ok.inj h, ← hv]
      omega
    · rw [if_neg hlt] at hby
      cases hby

lemma readU16E_ok_lt {rom : Rom} {pos v : Nat} (h : readU16E rom pos = .ok v) :
    pos < rom.size := by
  unfold readU16E at h
  obtain ⟨b0, hb0, h⟩ := bind_ok h
  exact readByteE_ok_lt hb0

lemma readU16E_ok_lt65536 {rom : Rom} {pos v : Nat} (h : readU16E rom pos = .ok v) :
    v < 0x10000 := by
  unfold readU16E at h
  obtain ⟨b0, hb0, h⟩ := bind_ok h
  obtain ⟨b1, hb1, h⟩ := bind_ok h
  have h0 := readByteE_ok_lt256 hb0
  have h1 := readByteE_ok_lt256 hb1
  rw [← Except.ok.inj h, Nat.shiftLeft_eq]
  omega

lemma error_bind {α β : Type _} (e : LErr) (f : α → Except LErr β) :
    (Except.error e : Except LErr α) >>= f = .error e := rfl

lemma load_state_data_ne_fuel (rom : Rom) (pos : Nat) :
    load_state_data rom pos ≠ .error .fuel := by
  unfold load_state_data
  refine bind_ne_error (readU24E_ne_fuel rom _) fun ld _ => ?_
  refine bind_ne_error (readByteE_ne_fuel rom _) fun tsRaw _ => ?_
  cases hts : TileSet.fromU8 tsRaw with
  | none => simp [hts, error_bind]
  | some t =>
    simp only [hts, ok_bind]
    refine bind_ne_error (readByteE_ne_fuel rom _) fun a1 _ => ?_
    refine bind_ne_error (readByteE_ne_fuel rom _) fun a2 _ => ?_
    refine bind_ne_error (readU16E_ne_fuel rom _) fun a3 _ => ?_
    refine bind_ne_error (readU16E_ne_fuel rom _) fun a4 _ => ?_
    refine bind_ne_error (readU16E_ne_fuel rom _) fun a5 _ => ?_
    refine bind_ne_error (readByteE_ne_fuel rom _) fun a6 _ => ?_
    refine bind_ne_error (readByteE_ne_fuel rom _) fun a7 _ => ?_
    refine bind_ne_error (readU16E_ne_fuel rom _) fun a8 _ => ?_
    refine bind_ne_error (readU16E_ne_fuel rom _) fun a9 _ => ?_
    refine bind_ne_error (readU16E_ne_fuel rom _) fun a10 _ => ?_
    refine bind_ne_error (readU16E_ne_fuel rom _) fun a11 _ => ?_
    refine bind_ne_error (readU16E_ne_fuel rom _) fun a12 _ => ?_
    refine bind_ne_error (readU16E_ne_fuel rom _) fun a13 _ => ?_
    simp

lemma load_state_condition_ne_fuel (rom : Rom) (pos : Nat) :
    load_state_condition rom pos ≠ .error .fuel := by
  unfold load_state_condition
  refine bind_ne_error (readU16E_ne_fuel rom _) fun raw _ => ?_
  by_cases h1 : raw = 0xe5e6
  · simp [h1]
  rw [if_neg h1]
  by_cases h2 : raw = 0xe5eb
  · rw [if_pos h2]
    refine bind_ne_error (readU16E_ne_fuel rom _) fun v _ => ?_
    simp
  rw [if_neg h2]
  by_cases h3 : raw = 0xe5ff
  · simp [h3]
  rw [if_neg h3]
  by_cases h4 : raw = 0xe612
  · rw [if_pos h4]
    refine bind_ne_error (readByteE_ne_fuel rom _) fun b _ => ?_
    cases Event.fromU8 b <;> simp
  rw [if_neg h4]
  by_cases h5 : raw = 0xe629
  · rw [if_pos h5]
    refine bind_ne_error (readByteE_ne_fuel rom _) fun b _ => ?_
    simp
  rw [if_neg h5]
  by_cases h6 : raw = 0xe640
  · simp [h6]
  rw [if_neg h6]
  by_cases h7 : raw = 0xe652
  · simp [h7]
  rw [if_neg h7]
  by_cases h8 : raw = 0xe669
  · simp [h8]
  rw [if_neg h8]
  by_cases h9 : raw = 0xe678
  · simp [h9]
  rw [if_neg h9]
  simp

/-- A successfully parsed state condition sits inside the ROM and advances
the cursor by at least two bytes. -/
lemma load_state_condition_pos {rom : Rom} {pos : Nat} {cond : StateCondition}
    {pos2 : Nat} (h : load_state_condition rom pos = .ok (cond, pos2)) :
    pos < rom.size ∧ pos + 2 ≤ pos2 := by
  unfold load_state_condition at h
  obtain ⟨raw, hraw, h⟩ := bind_ok h
  refine ⟨readU16E_ok_lt hraw, ?_⟩
  by_cases h1 : raw = 0xe5e6
  · rw [if_pos h1] at h
    have hp := ((Prod.mk.injEq _ _ _ _).mp (Except.ok.inj h)).2
    omega
  rw [if_neg h1] at h
  by_cases h2 : raw = 0xe5eb
  · rw [if_pos h2] at h
    obtain ⟨v, hv, h⟩ := bind_ok h
    have hp := ((Prod.mk.injEq _ _ _ _).mp (Except.ok.inj h)).2
    omega
  rw [if_neg h2] at h
  by_cases h3 : raw = 0xe5ff
  · rw [if_pos h3] at h
    have hp := ((Prod.mk.injEq _ _ _ _).mp (Except.ok.inj h)).2
    omega
  rw [if_neg h3] at h
  by_cases h4 : raw = 0xe612
  · rw [if_pos h4] at h
    obtain ⟨b, hb, h⟩ := bind_ok h
    cases hev : Event.fromU8 b with
    | none => rw [hev] at h; cases h
    | some ev =>
      rw [hev] at h
      have hp := ((Prod.mk.injEq _ _ _ _).mp (Except.ok.inj h)).2
      omega
  rw [if_neg h4] at h
  by_cases h5 : raw = 0xe629
  · rw [if_pos h5] at h
    obtain ⟨b, hb, h⟩ := bind_ok h
    have hp := ((Prod.mk.injEq _ _ _ _).mp (Except.ok.inj h)).2
    omega
  rw [if_neg h5] at h
  by_cases h6 : raw = 0xe640
  · rw [if_pos h6] at h
    have hp := ((Prod.mk.injEq _ _ _ _).mp (Except.ok.inj h)).2
    omega
  rw [if_neg h6] at h
  by_cases h7 : raw = 0xe652
  · rw [if_pos h7] at h
    have hp := ((Prod.mk.injEq _ _ _ _).mp (Except.ok.inj h)).2
    omega
  rw [if_neg h7] at h
  by_cases h8 : raw = 0xe669
  · rw [if_pos h8] at h
    have hp := ((Prod.mk.injEq _ _ _ _).mp (Except.ok.inj h)).2
    omega
  rw [if_neg h8] at h
  by_cases h9 : raw = 0xe678
  · rw [if_pos h9] at h
    have hp := ((Prod.mk.injEq _ _ _ _).mp (Except.ok.inj h)).2
    omega
  rw [if_neg h9] at h
  cases h

lemma statesGo_no_fuel (rom : Rom) :
    ∀ fuel pos acc, rom.size - pos < fuel →
      statesGo rom fuel pos acc ≠ .error .fuel := by
  intro fuel
  induction fuel with
  | zero => intro pos acc h; omega
  | succ f ih =>
    intro pos acc h
    simp only [statesGo]
    refine bind_ne_error (load_state_condition_ne_fuel rom pos) fun a hok => ?_
    obtain ⟨cond, pos2⟩ := a
    have hp := load_state_condition_pos hok
    cases cond with
    | default =>
      refine bind_ne_error (load_state_data_ne_fuel rom _) fun d _ => ?_
      simp
    | doorPointerIs v =>
      refine bind_ne_error (readU16E_ne_fuel rom _) fun dp _ => ?_
      refine bind_ne_error (load_state_data_ne_fuel rom _) fun d _ => ?_
      exact ih _ _ (by omega)
    | mainAreaBossDead =>
      refine bind_ne_error (readU16E_ne_fuel rom _) fun dp _ => ?_
      refine bind_ne_error (load_state_data_ne_fuel rom _) fun d _ => ?_
      exact ih _ _ (by omega)
    | eventSet ev =>
      refine bind_ne_error (readU16E_ne_fuel rom _) fun dp _ => ?_
      refine bind_ne_error (load_state_data_ne_fuel rom _) fun d _ => ?_
      exact ih _ _ (by omega)
    | areaBossesDead b =>
      refine bind_ne_error (readU16E_ne_fuel rom _) fun dp _ => ?_
      refine bind_ne_error (load_state_data_ne_fuel rom _) fun d _ => ?_
      exact ih _ _ (by omega)
    | hasMorphBall =>
      refine bind_ne_error (readU16E_ne_fuel rom _) fun dp _ => ?_
      refine bind_ne_error (load_state_data_ne_fuel rom _) fun d _ => ?_
      exact ih _ _ (by omega)
    | hasMorphBallAndMissiles =>
      refine bind_ne_error (readU16E_ne_fuel rom _) fun dp _ => ?_
      refine bind_ne_error (load_state_data_ne_fuel rom _) fun d _ => ?_
      exact ih _ _ (by omega)
    | hasPowerBombs =>
      refine bind_ne_error (readU16E_ne_fuel rom _) fun dp _ => ?_
      refine bind_ne_error (load_state_data_ne_fuel rom _) fun d _ => ?_
      exact ih _ _ (by omega)
    | hasSpeedBooster =>
      refine bind_ne_error (readU16E_ne_fuel rom _) fun dp _ => ?_
      refine bind_ne_error (load_state_data_ne_fuel rom _) fun d _ => ?_
      exact ih _ _ (by omega)

lemma load_room_mdb_header_ne_fuel (rom : Rom) (pos : Nat) :
    load_room_mdb_header rom pos ≠ .error .fuel := by
  unfold load_room_mdb_header
  refine bind_ne_error (readByteE_ne_fuel rom _) fun a1 _ => ?_
  refine bind_ne_error (readByteE_ne_fuel rom _) fun a2 _ => ?_
  cases ha : Area.fromU8 a2 with
  | none => simp [ha, error_bind]
  | some ar =>
    simp only [ha, ok_bind]
    refine bind_ne_error (readByteE_ne_fuel rom _) fun a3 _ => ?_
    refine bind_ne_error (readByteE_ne_fuel rom _) fun a4 _ => ?_
    refine bind_ne_error (readByteE_ne_fuel rom _) fun a5 _ => ?_
    refine bind_ne_error (readByteE_ne_fuel rom _) fun a6 _ => ?_
    refine bind_ne_error (readByteE_ne_fuel rom _) fun a7 _ => ?_
    refine bind_ne_error (readByteE_ne_fuel rom _) fun a8 _ => ?_
    refine bind_ne_error (readByteE_ne_fuel rom _) fun a9 _ => ?_
    refine bind_ne_error (readU16E_ne_fuel rom _) fun a10 _ => ?_
    simp

lemma load_room_mdb_ne_fuel (rom : Rom) (offset : Nat) :
    load_room_mdb rom offset ≠ .error .fuel := by
  unfold load_room_mdb
  refine bind_ne_error (load_room_mdb_header_ne_fuel rom _) fun mdb _ => ?_
  refine bind_ne_error (statesGo_no_fuel rom _ _ [] (by omega)) fun sts _ => ?_
  simp

lemma plmGo_no_fuel (rom : Rom) :
    ∀ fuel pos acc, rom.size - pos < fuel → plmGo rom fuel pos acc ≠ .error .fuel := by
  intro fuel
  induction fuel with
  | zero => intro pos acc h; omega
  | succ f ih =>
    intro pos acc h
    simp only [plmGo]
    refine bind_ne_error (readU16E_ne_fuel rom _) fun id hok => ?_
    have hpos : pos < rom.size := readU16E_ok_lt hok
    by_cases hz : id = 0
    · simp [hz]
    · rw [if_neg hz]
      refine bind_ne_error (readByteE_ne_fuel rom _) fun x _ => ?_
      refine bind_ne_error (readByteE_ne_fuel rom _) fun y _ => ?_
      refine bind_ne_error (readU16E_ne_fuel rom _) fun par _ => ?_
      exact ih _ _ (by omega)

lemma load_door_data_ne_fuel (rom : Rom) (pos : Nat) :
    load_door_data rom pos ≠ .error .fuel := by
  unfold load_door_data
  refine bind_ne_error (readU16E_ne_fuel rom _) fun a1 _ => ?_
  refine bind_ne_error (readByteE_ne_fuel rom _) fun a2 _ => ?_
  refine bind_ne_error (readByteE_ne_fuel rom _) fun a3 _ => ?_
  refine bind_ne_error (readByteE_ne_fuel rom _) fun a4 _ => ?_
  refine bind_ne_error (readByteE_ne_fuel rom _) fun a5 _ => ?_
  refine bind_ne_error (readByteE_ne_fuel rom _) fun a6 _ => ?_
  refine bind_ne_error (readByteE_ne_fuel rom _) fun a7 _ => ?_
  refine bind_ne_error (readU16E_ne_fuel rom _) fun a8 _ => ?_
  refine bind_ne_error (readU16E_ne_fuel rom _) fun a9 _ => ?_
  simp

lemma load_door_list_ne_fuel (rom : Rom) (mdbMap : List (Nat × RoomMdb)) :
    ∀ n pos doors frontier,
      load_door_list rom mdbMap pos n doors frontier ≠ .error .fuel := by
  intro n
  induction n with
  | zero => intro pos doors frontier; simp [load_door_list]
  | succ m ih =>
    intro pos doors frontier
    simp only [load_door_list]
    refine bind_ne_error (readU16E_ne_fuel rom _) fun dp _ => ?_
    refine bind_ne_error (load_door_data_ne_fuel rom _) fun dd _ => ?_
    by_cases hz : dd.dest_room_ptr = 0
    · rw [if_pos hz]
      exact ih _ _ _
    · rw [if_neg hz]
      exact ih _ _ _

lemma get_or_load_level_data_ne_fuel (rom : Rom) (cache : List (Nat × RoomData))
    (ptr : Nat) : get_or_load_level_data rom cache ptr ≠ .error .fuel := by
  unfold get_or_load_level_data
  refine bind_ne_error (decompressAt_ne_fuel rom _) fun bytes _ => ?_
  refine bind_ne_error (load_room_data_ne_fuel bytes) fun rd _ => ?_
  cases alLookup cache ptr <;> simp

lemma get_or_load_plm_list_ne_fuel (rom : Rom)
    (cache : List (Nat × List PlmPopulation)) (ptr : Nat) :
    get_or_load_plm_list rom cache ptr ≠ .error .fuel := by
  unfold get_or_load_plm_list
  refine bind_ne_error (plmGo_no_fuel rom _ _ [] (by omega)) fun plms _ => ?_
  cases alLookup cache ptr <;> simp

lemma load_level_data_ne_fuel (rom : Rom) :
    ∀ states ld pl nd, load_level_data rom states ld pl nd ≠ .error .fuel := by
  intro states
  induction states with
  | nil => intro ld pl nd; simp [load_level_data]
  | cons s rest ih =>
    intro ld pl nd
    simp only [load_level_data]
    refine bind_ne_error (get_or_load_level_data_ne_fuel rom _ _) fun a _ => ?_
    obtain ⟨ld2, rd⟩ := a
    refine bind_ne_error (get_or_load_plm_list_ne_fuel rom _ _) fun b _ => ?_
    obtain ⟨pl2, plms⟩ := b
    exact ih _ _ _

lemma stepRoom_ne_fuel (rom : Rom) (st : LoaderSt) (p : Nat) :
    stepRoom rom st p ≠ .error .fuel := by
  unfold stepRoom
  refine bind_ne_error (load_room_mdb_ne_fuel rom _) fun mdb0 _ => ?_
  refine bind_ne_error (load_level_data_ne_fuel rom _ _ _ _) fun a _ => ?_
  obtain ⟨ld2, pl2, nd⟩ := a
  refine bind_ne_error (load_door_list_ne_fuel rom _ _ _ _ _) fun b _ => ?_
  obtain ⟨doors, frontier2⟩ := b
  simp

/-! ## Room-loop invariants -/

lemma alContains_iff {α : Type _} (l : List (Nat × α)) (k : Nat) :
    alContains l k = true ↔ k ∈ l.map Prod.fst := by
  induction l with
  | nil => simp [alContains]
  | cons p rest ih =>
    simp only [alContains, List.any_cons, List.map_cons, List.mem_cons,
               Bool.or_eq_true, decide_eq_true_eq]
    rw [← alContains, ih]
    constructor
    · rintro (h | h)
      · exact Or.inl h.symm
      · exact Or.inr h
    · rintro (h | h)
      · exact Or.inl h.symm
      · exact Or.inr h

lemma alContains_cons {α : Type _} (k0 : Nat) (v : α) (l : List (Nat × α)) (k : Nat) :
    alContains ((k0, v) :: l) k = true ↔ k0 = k ∨ alContains l k = true := by
  simp only [alContains, List.any_cons, Bool.or_eq_true, decide_eq_true_eq]

lemma insertSet_self (l : List Nat) (x : Nat) : x ∈ insertSet l x := by
  unfold insertSet
  by_cases hx : x ∈ l
  · rw [if_pos hx]; exact hx
  · rw [if_neg hx]; simp

lemma insertSet_mono (l : List Nat) (x : Nat) : ∀ q ∈ l, q ∈ insertSet l x := by
  intro q hq
  unfold insertSet
  by_cases hx : x ∈ l
  · rw [if_pos hx]; exact hq
  · rw [if_neg hx]; simp [hq]

lemma insertSet_sub (l : List Nat) (x : Nat) :
    ∀ q ∈ insertSet l x, q ∈ l ∨ q = x := by
  intro q hq
  unfold insertSet at hq
  by_cases hx : x ∈ l
  · rw [if_pos hx] at hq; exact Or.inl hq
  · rw [if_neg hx] at hq
    rcases List.mem_append.mp hq with h | h
    · exact Or.inl h
    · simp at h; exact Or.inr h

lemma load_door_data_dest_lt {rom : Rom} {pos : Nat} {dd : DoorData}
    (h : load_door_data rom pos = .ok dd) : dd.dest_room_ptr < 0x10000 := by
  unfold load_door_data at h
  obtain ⟨dest, hdest, h⟩ := bind_ok h
  obtain ⟨a2, _, h⟩ := bind_ok h
  obtain ⟨a3, _, h⟩ := bind_ok h
  obtain ⟨a4, _, h⟩ := bind_ok h
  obtain ⟨a5, _, h⟩ := bind_ok h
  obtain ⟨a6, _, h⟩ := bind_ok h
  obtain ⟨a7, _, h⟩ := bind_ok h
  obtain ⟨a8, _, h⟩ := bind_ok h
  obtain ⟨a9, _, h⟩ := bind_ok h
  have hlt := readU16E_ok_lt65536 hdest
  rw [← Except.ok.inj h]
  exact hlt

/-- What one run of the door-list loop guarantees: the frontier only grows,
every new frontier element is an unseen 16-bit room pointer, and every
collected door has a non-zero destination that is either an already-loaded
room or on the final frontier. -/
lemma load_door_list_spec (rom : Rom) (mdbMap : List (Nat × RoomMdb)) :
    ∀ n pos doors frontier doors2 frontier2,
      load_door_list rom mdbMap pos n doors frontier = .ok (doors2, frontier2) →
      (∀ q ∈ frontier, q ∈ frontier2) ∧
      (∀ q ∈ frontier2, q ∈ frontier ∨
        (q < 0x10000 ∧ alContains mdbMap q = false)) ∧
      (∀ d ∈ doors2, d ∈ doors ∨
        (d.dest_room_ptr ≠ 0 ∧
         (alContains mdbMap d.dest_room_ptr = true ∨
          d.dest_room_ptr ∈ frontier2))) := by
  intro n
  induction n with
  | zero =>
    intro pos doors frontier doors2 frontier2 h
    simp only [load_door_list] at h
    obtain ⟨hd, hf⟩ := (Prod.mk.injEq _ _ _ _).mp (Except.ok.inj h)
    subst hd; subst hf
    exact ⟨fun q hq => hq, fun q hq => Or.inl hq, fun d hd => Or.inl hd⟩
  | succ m ih =>
    intro pos doors frontier doors2 frontier2 h
    simp only [load_door_list] at h
    obtain ⟨dp, hdp, h⟩ := bind_ok h
    obtain ⟨dd, hdd, h⟩ := bind_ok h
    have hdest := load_door_data_dest_lt hdd
    by_cases hz : dd.dest_room_ptr = 0
    · rw [if_pos hz] at h
      exact ih _ _ _ _ _ h
    · rw [if_neg hz] at h
      obtain ⟨h1, h2, h3⟩ := ih _ _ _ _ _ h
      by_cases hc : alContains mdbMap dd.dest_room_ptr = true
      · simp only [if_pos hc] at h1 h2
        refine ⟨h1, h2, fun d hdm => ?_⟩
        rcases h3 d hdm with hin | hnew
        · rcases List.mem_append.mp hin with hin2 | hin2
          · exact Or.inl hin2
          · simp at hin2
            subst hin2
            exact Or.inr ⟨hz, Or.inl hc⟩
        · exact Or.inr hnew
      · simp only [if_neg hc] at h1 h2
        refine ⟨fun q hq => h1 q (insertSet_mono _ _ q hq), fun q hq => ?_,
                fun d hdm => ?_⟩
        · rcases h2 q hq with hq2 | hq2
          · rcases insertSet_sub _ _ q hq2 with hq3 | hq3
            · exact Or.inl hq3
            · subst hq3
              exact Or.inr ⟨hdest, Bool.eq_false_iff.mpr hc⟩
          · exact Or.inr hq2
        · rcases h3 d hdm with hin | hnew
          · rcases List.mem_append.mp hin with hin2 | hin2
            · exact Or.inl hin2
            · simp at hin2
              subst hin2
              refine Or.inr ⟨hz, Or.inr ?_⟩
              exact h1 _ (insertSet_self frontier _)
          · exact Or.inr hnew

/-- Invert a successful `stepRoom`. -/
lemma stepRoom_inv {rom : Rom} {st : LoaderSt} {p : Nat} {st2 : LoaderSt}
    (h : stepRoom rom st p = .ok st2) :
    ∃ (mdb0 : RoomMdb) (ld2 : List (Nat × RoomData))
      (pl2 : List (Nat × List PlmPopulation)) (nd : Nat)
      (doors : List DoorData) (frontier2 : List Nat),
      load_door_list rom st.room_mdb (rom_addr 0x8f mdb0.door_list_ptr) nd []
        st.rooms_to_check = .ok (doors, frontier2) ∧
      st2 = { rooms_to_check := frontier2.filter fun q => q != p
              room_mdb := (p, { mdb0 with door_list := doors }) :: st.room_mdb
              level_data := ld2
              plm_population := pl2 } := by
  unfold stepRoom at h
  obtain ⟨mdb0, h0, h⟩ := bind_ok h
  obtain ⟨a, h1, h⟩ := bind_ok h
  obtain ⟨ld2, pl2, nd⟩ := a
  obtain ⟨b, h2, h⟩ := bind_ok h
  obtain ⟨doors, frontier2⟩ := b
  exact ⟨mdb0, ld2, pl2, nd, doors, frontier2, h2, (Except.ok.inj h).symm⟩

lemma nodup_bounded_length (l : List Nat) (n : Nat) (hn : l.Nodup)
    (hb : ∀ x ∈ l, x < n) : l.length ≤ n := by
  classical
  have hcard : l.toFinset.card = l.length := List.toFinset_card_of_nodup hn
  have hsub : l.toFinset ⊆ Finset.range n := by
    intro x hx
    rw [List.mem_toFinset] at hx
    exact Finset.mem_range.mpr (hb x hx)
  calc l.length = l.toFinset.card := hcard.symm
    _ ≤ (Finset.range n).card := Finset.card_le_card hsub
    _ = n := Finset.card_range n

/-- One room step preserves well-formedness and grows `room_mdb` by one. -/
lemma stepRoom_wf {rom : Rom} {st : LoaderSt} {p : Nat} {st2 : LoaderSt}
    (hp : p ∈ st.rooms_to_check) (hw : WFSt st) (h : stepRoom rom st p = .ok st2) :
    WFSt st2 ∧ st2.room_mdb.length = st.room_mdb.length + 1 := by
  obtain ⟨mdb0, ld2, pl2, nd, doors, frontier2, hdl, hst2⟩ := stepRoom_inv h
  obtain ⟨hf1, hf2, hf3⟩ := load_door_list_spec rom st.room_mdb _ _ _ _ _ _ hdl
  obtain ⟨hw1, hw2, hw3, hw4⟩ := hw
  subst hst2
  have hpk : p ∉ st.room_mdb.map Prod.fst := by
    intro hmem
    have hcon : alContains st.room_mdb p = true := (alContains_iff _ _).mpr hmem
    rw [hw2 p hp] at hcon
    cases hcon
  refine ⟨⟨?_, ?_, ?_, ?_⟩, by simp⟩
  · intro q hq
    rw [List.mem_filter] at hq
    rcases hf2 q hq.1 with hq2 | hq2
    · exact hw1 q hq2
    · exact hq2.1
  · intro q hq
    rw [List.mem_filter] at hq
    obtain ⟨hqf, hqp⟩ := hq
    have hqnep : q ≠ p := by simpa using hqp
    have hqc : alContains st.room_mdb q = false := by
      rcases hf2 q hqf with hq2 | hq2
      · exact hw2 q hq2
      · exact hq2.2
    apply Bool.eq_false_iff.mpr
    intro hcon
    rcases (alContains_cons _ _ _ _).mp hcon with he | hcon2
    · exact hqnep he.symm
    · rw [hqc] at hcon2
      cases hcon2
  · simp only [List.map_cons]
    exact List.nodup_cons.mpr ⟨hpk, hw3⟩
  · intro k hk
    simp only [List.map_cons, List.mem_cons] at hk
    rcases hk with hk | hk
    · rw [hk]
      exact hw1 p hp
    · exact hw4 k hk

/-- One room step preserves the door invariant. -/
lemma stepRoom_dinv {rom : Rom} {st : LoaderSt} {p : Nat} {st2 : LoaderSt}
    (hd : DInv st) (h : stepRoom rom st p = .ok st2) : DInv st2 := by
  obtain ⟨mdb0, ld2, pl2, nd, doors, frontier2, hdl, hst2⟩ := stepRoom_inv h
  obtain ⟨hf1, hf2, hf3⟩ := load_door_list_spec rom st.room_mdb _ _ _ _ _ _ hdl
  subst hst2
  intro pm hpm d hdm
  have hfr : ∀ x, x ∈ frontier2 →
      (alContains ((p, { mdb0 with door_list := doors }) :: st.room_mdb) x = true ∨
       x ∈ frontier2.filter fun q => q != p) := by
    intro x hxf
    by_cases hxp : x = p
    · subst hxp
      exact Or.inl ((alContains_cons _ _ _ _).mpr (Or.inl rfl))
    · right
      rw [List.mem_filter]
      exact ⟨hxf, by simpa using hxp⟩
  rcases List.mem_cons.mp hpm with hpm1 | hpm1
  · subst hpm1
    rcases hf3 d hdm with hin | hnew
    · cases hin
    · obtain ⟨hz, hloc⟩ := hnew
      refine ⟨hz, ?_⟩
      rcases hloc with hc | hfr2
      · exact Or.inl ((alContains_cons _ _ _ _).mpr (Or.inr hc))
      · exact hfr d.dest_room_ptr hfr2
  · obtain ⟨hz, hloc⟩ := hd pm hpm1 d hdm
    refine ⟨hz, ?_⟩
    rcases hloc with hc | hfr0
    · exact Or.inl ((alContains_cons _ _ _ _).mpr (Or.inr hc))
    · exact hfr d.dest_room_ptr (hf1 _ hfr0)

/-- Fuel sufficiency for the room loop: `room_mdb` grows by one fresh 16-bit
key per iteration, so any fuel exceeding `0x10000 - |room_mdb|` is enough. -/
lemma roomLoop_no_fuel (rom : Rom) :
    ∀ fuel st, WFSt st → 0x10000 - st.room_mdb.length < fuel →
      roomLoop rom fuel st ≠ .error .fuel := by
  intro fuel
  induction fuel with
  | zero => intro st hw h; omega
  | succ f ih =>
    intro st hw h
    simp only [roomLoop]
    cases hfr : st.rooms_to_check with
    | nil => simp
    | cons p rest =>
      refine bind_ne_error (stepRoom_ne_fuel rom st p) fun st2 hok => ?_
      have hp : p ∈ st.rooms_to_check := by
        rw [hfr]
        exact List.mem_cons_self _ _
      obtain ⟨hw2, hlen⟩ := stepRoom_wf hp hw hok
      have hbound : st2.room_mdb.length ≤ 0x10000 := by
        obtain ⟨_, _, hn, hb⟩ := hw2
        have := nodup_bounded_length _ _ hn hb
        simpa using this
      exact ih st2 hw2 (by omega)

/-- A successful room loop empties the frontier and preserves the door
invariant. -/
lemma roomLoop_ok_inv (rom : Rom) :
    ∀ fuel st st2, roomLoop rom fuel st = .ok st2 → WFSt st → DInv st →
      st2.rooms_to_check = [] ∧ DInv st2 := by
  intro fuel
  induction fuel with
  | zero => intro st st2 h; cases h
  | succ f ih =>
    intro st st2 h hw hd
    simp only [roomLoop] at h
    cases hfr : st.rooms_to_check with
    | nil =>
      rw [hfr] at h
      obtain rfl : st = st2 := Except.ok.inj h
      exact ⟨hfr, hd⟩
    | cons p rest =>
      rw [hfr] at h
      obtain ⟨st1, hok, h⟩ := bind_ok h
      have hp : p ∈ st.rooms_to_check := by
        rw [hfr]
        exact List.mem_cons_self _ _
      obtain ⟨hw1, _⟩ := stepRoom_wf hp hw hok
      exact ih st1 st2 h hw1 (stepRoom_dinv hd hok)

/-! ## Tileset, tiles and palette lemmas -/

lemma load_tileset_table_ne_fuel (rom : Rom) :
    ∀ n pos, load_tileset_table rom pos n ≠ .error .fuel := by
  intro n
  induction n with
  | zero => intro pos; simp [load_tileset_table]
  | succ m ih =>
    intro pos
    simp only [load_tileset_table]
    refine bind_ne_error (readU16E_ne_fuel rom _) fun ptr _ => ?_
    refine bind_ne_error (readU24E_ne_fuel rom _) fun tt _ => ?_
    refine bind_ne_error (readU24E_ne_fuel rom _) fun ti _ => ?_
    refine bind_ne_error (readU24E_ne_fuel rom _) fun pa _ => ?_
    refine bind_ne_error (ih _) fun rest _ => ?_
    simp

lemma load_tileset_table_len (rom : Rom) :
    ∀ n pos ts, load_tileset_table rom pos n = .ok ts → ts.length = n := by
  intro n
  induction n with
  | zero =>
    intro pos ts h
    simp only [load_tileset_table] at h
    rw [← Except.ok.inj h]
    rfl
  | succ m ih =>
    intro pos ts h
    simp only [load_tileset_table] at h
    obtain ⟨ptr, _, h⟩ := bind_ok h
    obtain ⟨tt, _, h⟩ := bind_ok h
    obtain ⟨ti, _, h⟩ := bind_ok h
    obtain ⟨pa, _, h⟩ := bind_ok h
    obtain ⟨rest, hrest, h⟩ := bind_ok h
    rw [← Except.ok.inj h]
    simp [ih _ _ hrest]

lemma load_tiles_ne_fuel (rom : Rom) (tiles : List (Nat × Tiles)) (addr : Nat) :
    load_tiles rom tiles addr ≠ .error .fuel := by
  unfold load_tiles
  by_cases hc : alContains tiles addr = true
  · rw [if_pos hc]; simp
  · rw [if_neg hc]
    refine bind_ne_error (decompressAt_ne_fuel rom _) fun data _ => ?_
    simp

lemma load_tiles_spec {rom : Rom} {tiles tiles2 : List (Nat × Tiles)} {addr : Nat}
    (h : load_tiles rom tiles addr = .ok tiles2) :
    alContains tiles2 addr = true ∧
    (∀ k, alContains tiles k = true → alContains tiles2 k = true) := by
  unfold load_tiles at h
  by_cases hc : alContains tiles addr = true
  · rw [if_pos hc] at h
    obtain rfl : tiles = tiles2 := Except.ok.inj h
    exact ⟨hc, fun k hk => hk⟩
  · rw [if_neg hc] at h
    obtain ⟨data, _, h⟩ := bind_ok h
    rw [← Except.ok.inj h]
    exact ⟨(alContains_cons _ _ _ _).mpr (Or.inl rfl),
           fun k hk => (alContains_cons _ _ _ _).mpr (Or.inr hk)⟩

lemma load_tile_table_ne_fuel (rom : Rom) (tables : List (Nat × TileTable))
    (addr : Nat) : load_tile_table rom tables addr ≠ .error .fuel := by
  unfold load_tile_table
  by_cases hc : alContains tables addr = true
  · rw [if_pos hc]; simp
  · rw [if_neg hc]
    refine bind_ne_error (decompressAt_ne_fuel rom _) fun data _ => ?_
    simp

lemma load_tile_table_spec {rom : Rom} {tables tables2 : List (Nat × TileTable)}
    {addr : Nat} (h : load_tile_table rom tables addr = .ok tables2) :
    alContains tables2 addr = true ∧
    (∀ k, alContains tables k = true → alContains tables2 k = true) := by
  unfold load_tile_table at h
  by_cases hc : alContains tables addr = true
  · rw [if_pos hc] at h
    obtain rfl : tables = tables2 := Except.ok.inj h
    exact ⟨hc, fun k hk => hk⟩
  · rw [if_neg hc] at h
    obtain ⟨data, _, h⟩ := bind_ok h
    rw [← Except.ok.inj h]
    exact ⟨(alContains_cons _ _ _ _).mpr (Or.inl rfl),
           fun k hk => (alContains_cons _ _ _ _).mpr (Or.inr hk)⟩

lemma load_tile_sets_ne_fuel (rom : Rom) :
    ∀ entries ti tt, load_tile_sets rom entries ti tt ≠ .error .fuel := by
  intro entries
  induction entries with
  | nil => intro ti tt; simp [load_tile_sets]
  | cons e rest ih =>
    intro ti tt
    simp only [load_tile_sets]
    refine bind_ne_error (load_tiles_ne_fuel rom _ _) fun ti2 _ => ?_
    refine bind_ne_error (load_tile_table_ne_fuel rom _ _) fun tt2 _ => ?_
    exact ih _ _

/-- After the tileset loop, both pointers of every entry are cached, and the
caches only grow. -/
lemma load_tile_sets_spec (rom : Rom) :
    ∀ entries ti tt ti2 tt2,
      load_tile_sets rom entries ti tt = .ok (ti2, tt2) →
      (∀ k, alContains ti k = true → alContains ti2 k = true) ∧
      (∀ k, alContains tt k = true → alContains tt2 k = true) ∧
      (∀ e ∈ entries,
        alContains ti2 e.tiles_ptr = true ∧
        alContains tt2 e.tile_table_ptr = true) := by
  intro entries
  induction entries with
  | nil =>
    intro ti tt ti2 tt2 h
    simp only [load_tile_sets] at h
    obtain ⟨h1, h2⟩ := (Prod.mk.injEq _ _ _ _).mp (Except.ok.inj h)
    subst h1; subst h2
    exact ⟨fun k hk => hk, fun k hk => hk, fun e he => absurd he (List.not_mem_nil e)⟩
  | cons e rest ih =>
    intro ti tt ti2 tt2 h
    simp only [load_tile_sets] at h
    obtain ⟨tiA, htiA, h⟩ := bind_ok h
    obtain ⟨ttA, httA, h⟩ := bind_ok h
    obtain ⟨hm1, hm2, hall⟩ := ih _ _ _ _ h
    obtain ⟨hin1, hmono1⟩ := load_tiles_spec htiA
    obtain ⟨hin2, hmono2⟩ := load_tile_table_spec httA
    refine ⟨fun k hk => hm1 k (hmono1 k hk), fun k hk => hm2 k (hmono2 k hk),
            fun e2 he2 => ?_⟩
    rcases List.mem_cons.mp he2 with he2 | he2
    · subst he2
      exact ⟨hm1 _ hin1, hm2 _ hin2⟩
    · exact hall e2 he2

lemma readWordList_len (data : List Nat) :
    ∀ n pos ws, readWordList data pos n = .ok ws → ws.length = n := by
  intro n
  induction n with
  | zero =>
    intro pos ws h
    simp only [readWordList] at h
    rw [← Except.ok.inj h]
    rfl
  | succ m ih =>
    intro pos ws h
    simp only [readWordList] at h
    cases hw : listReadU16 data pos with
    | none => rw [hw] at h; cases h
    | some w =>
      rw [hw] at h
      obtain ⟨rest, hrest, h⟩ := bind_ok h
      rw [← Except.ok.inj h]
      simp [ih _ _ hrest]

lemma alLookup_cons {α : Type _} (k0 : Nat) (v : α) (l : List (Nat × α)) (k : Nat) :
    alLookup ((k0, v) :: l) k = if k0 = k then some v else alLookup l k := rfl

lemma alContains_lookup {α : Type _} (l : List (Nat × α)) (k : Nat)
    (h : alContains l k = true) : ∃ v, alLookup l k = some v := by
  induction l with
  | nil => cases h
  | cons p rest ih =>
    obtain ⟨k0, v⟩ := p
    rcases (alContains_cons _ _ _ _).mp h with he | hc
    · exact ⟨v, by rw [alLookup_cons, if_pos he]⟩
    · by_cases he : k0 = k
      · exact ⟨v, by rw [alLookup_cons, if_pos he]⟩
      · obtain ⟨w, hw⟩ := ih hc
        exact ⟨w, by rw [alLookup_cons, if_neg he]; exact hw⟩

lemma load_palette_ne_fuel (rom : Rom) (pals : List (Nat × Palette)) (addr : Nat) :
    load_palette rom pals addr ≠ .error .fuel := by
  unfold load_palette
  by_cases hc : alContains pals addr = true
  · rw [if_pos hc]; simp
  · rw [if_neg hc]
    refine bind_ne_error (decompressAt_ne_fuel rom _) fun data _ => ?_
    refine bind_ne_error (readWordList_ne_fuel data _ _) fun ws _ => ?_
    simp

lemma load_palette_spec {rom : Rom} {pals pals2 : List (Nat × Palette)} {addr : Nat}
    (h : load_palette rom pals addr = .ok pals2) :
    alContains pals2 addr = true ∧
    (∀ k, alContains pals k = true → alContains pals2 k = true) ∧
    ((∀ k pal, alLookup pals k = some pal → pal.colors.length = 128) →
      ∀ k pal, alLookup pals2 k = some pal → pal.colors.length = 128) := by
  unfold load_palette at h
  by_cases hc : alContains pals addr = true
  · rw [if_pos hc] at h
    obtain rfl : pals = pals2 := Except.ok.inj h
    exact ⟨hc, fun k hk => hk, fun hall => hall⟩
  · rw [if_neg hc] at h
    obtain ⟨data, _, h⟩ := bind_ok h
    obtain ⟨ws, hws, h⟩ := bind_ok h
    have hwlen := readWordList_len data _ _ _ hws
    rw [← Except.ok.inj h]
    refine ⟨(alContains_cons _ _ _ _).mpr (Or.inl rfl),
            fun k hk => (alContains_cons _ _ _ _).mpr (Or.inr hk),
            fun hall k pal hpal => ?_⟩
    rw [alLookup_cons] at hpal
    by_cases he : addr = k
    · rw [if_pos he] at hpal
      rw [← Option.some.inj hpal]
      simp [hwlen]
    · rw [if_neg he] at hpal
      exact hall k pal hpal

lemma load_palettes_ne_fuel (rom : Rom) :
    ∀ entries pals, load_palettes rom entries pals ≠ .error .fuel := by
  intro entries
  induction entries with
  | nil => intro pals; simp [load_palettes]
  | cons e rest ih =>
    intro pals
    simp only [load_palettes]
    refine bind_ne_error (load_palette_ne_fuel rom _ _) fun pals2 _ => ?_
    exact ih _

/-- After the palette pass every entry's palette pointer is cached, the
cache only grows, and every cached palette has exactly 128 colours. -/
lemma load_palettes_spec (rom : Rom) :
    ∀ entries pals pals2,
      load_palettes rom entries pals = .ok pals2 →
      (∀ k, alContains pals k = true → alContains pals2 k = true) ∧
      (∀ e ∈ entries, alContains pals2 e.palette_ptr = true) ∧
      ((∀ k pal, alLookup pals k = some pal → pal.colors.length = 128) →
        ∀ k pal, alLookup pals2 k = some pal → pal.colors.length = 128) := by
  intro entries
  induction entries with
  | nil =>
    intro pals pals2 h
    simp only [load_palettes] at h
    obtain rfl : pals = pals2 := Except.ok.inj h
    exact ⟨fun k hk => hk, fun e he => absurd he (List.not_mem_nil e),
           fun hall => hall⟩
  | cons e rest ih =>
    intro pals pals2 h
    simp only [load_palettes] at h
    obtain ⟨palsA, hA, h⟩ := bind_ok h
    obtain ⟨hin, hmono, h128⟩ := load_palette_spec hA
    obtain ⟨hm, hall, hinv⟩ := ih _ _ h
    refine ⟨fun k hk => hm k (hmono k hk), fun e2 he2 => ?_, fun h0 => hinv (h128 h0)⟩
    rcases List.mem_cons.mp he2 with he2 | he2
    · subst he2
      exact hm _ hin
    · exact hall e2 he2

lemma wf_init :
    WFSt { rooms_to_check := [rom_addr_to_snes16 ROOM_MDB_START]
           room_mdb := [], level_data := [], plm_population := [] } := by
  refine ⟨?_, ?_, ?_, ?_⟩
  · intro q hq
    simp only [List.mem_singleton] at hq
    subst hq
    decide
  · intro q _
    rfl
  · simp
  · simp

/-! ## C8 : termination -/

/-- C8: `load` terminates on every input: the room-frontier loop, the
state-condition loop, the PLM loop, the door-list loop and the decompression
loop never exhaust the fuel budgets of the embedding (`LErr.fuel` is
unreachable), so every run returns a `SuperMetroidData` or an error value. -/
theorem c8_load_terminates :
    (∀ rom : Rom, SuperMetroidData.new rom ≠ .error .fuel) ∧
    (∀ l : List Nat, decompress l ≠ .error .fuel) := by
  constructor
  · intro rom
    unfold SuperMetroidData.new
    by_cases hsz : rom.size ≠ 0x300000
    · rw [if_pos hsz]
      simp
    · rw [if_neg hsz]
      unfold Loader.load
      refine bind_ne_error
        (roomLoop_no_fuel rom 0x10001 _ wf_init (by decide)) fun st _ => ?_
      refine bind_ne_error (load_tileset_table_ne_fuel rom _ _) fun ts _ => ?_
      refine bind_ne_error (load_tile_sets_ne_fuel rom _ _ _) fun a _ => ?_
      obtain ⟨ti1, tt1⟩ := a
      refine bind_ne_error (load_tiles_ne_fuel rom _ _) fun ti2 _ => ?_
      refine bind_ne_error (load_tile_table_ne_fuel rom _ _) fun tt2 _ => ?_
      simp
  · intro l
    unfold decompress decompressAt
    exact dgo_no_fuel _ _ 0 [] (by omega)

/-! ## C3 : door destinations -/

/-- C3: after a successful load, every door of every room has a non-zero
destination pointer that is a key of `room_mdb`; doors with destination 0
were skipped during loading and appear in no door list. -/
theorem c3_door_destinations (rom : Rom) (sm : SuperMetroidData)
    (h : SuperMetroidData.new rom = .ok sm) :
    ∀ pm ∈ sm.room_mdb, ∀ d ∈ pm.2.door_list,
      d.dest_room_ptr ≠ 0 ∧ alContains sm.room_mdb d.dest_room_ptr = true := by
  unfold SuperMetroidData.new at h
  by_cases hsz : rom.size ≠ 0x300000
  · rw [if_pos hsz] at h
    cases h
  · rw [if_neg hsz] at h
    unfold Loader.load at h
    obtain ⟨st, hloop, h⟩ := bind_ok h
    obtain ⟨ts, hts, h⟩ := bind_ok h
    obtain ⟨a, hls, h⟩ := bind_ok h
    obtain ⟨ti1, tt1⟩ := a
    obtain ⟨ti2, hti2, h⟩ := bind_ok h
    obtain ⟨tt2, htt2, h⟩ := bind_ok h
    obtain ⟨hempty, hdinv⟩ := roomLoop_ok_inv rom _ _ _ hloop wf_init
      (fun pm hpm => absurd hpm (List.not_mem_nil pm))
    obtain rfl : _ = sm := Except.ok.inj h
    intro pm hpm d hdm
    obtain ⟨hz, hloc⟩ := hdinv pm hpm d hdm
    rcases hloc with hc | hmem
    · exact ⟨hz, hc⟩
    · rw [hempty] at hmem
      cases hmem

/-- Witness for C3: the synthetic ROM `romW` loads successfully and its one
room's one door leads back to it. -/
theorem c3_door_destinations_witness :
    SuperMetroidData.new romW = .ok smW ∧
    ∀ pm ∈ smW.room_mdb, ∀ d ∈ pm.2.door_list,
      d.dest_room_ptr ≠ 0 ∧ alContains smW.room_mdb d.dest_room_ptr = true := by
  have hEq : SuperMetroidData.new romW = .ok smW := by decide
  exact ⟨hEq, c3_door_destinations romW smW hEq⟩

/-! ## C1 : tileset cache coverage -/

/-- C1: after a successful load (palette pass spec-modelled), the tile_sets
list has 29 entries; every entry's tiles pointer and tile-table pointer are
keys of the `tiles` and `tile_tables` caches, and its palette pointer is a
key of the palettes cache whose palette holds exactly 128 decoded colours;
the fixed CRE tile and CRE tile-table pointers are cached as well. -/
theorem c1_tileset_caches (rom : Rom) (smp : SuperMetroidFull)
    (h : load_full rom = .ok smp) :
    smp.sm.tile_sets.length = 29 ∧
    (∀ e ∈ smp.sm.tile_sets,
      alContains smp.sm.tiles e.tiles_ptr = true ∧
      alContains smp.sm.tile_tables e.tile_table_ptr = true ∧
      ∃ pal, alLookup smp.palettes e.palette_ptr = some pal ∧
             pal.colors.length = 128) ∧
    alContains smp.sm.tiles (rom_addr_to_snes CRE_TILES) = true ∧
    alContains smp.sm.tile_tables (rom_addr_to_snes CRE_TILE_TABLE) = true := by
  unfold load_full at h
  obtain ⟨sm, hnew, h⟩ := bind_ok h
  obtain ⟨pals, hpals, h⟩ := bind_ok h
  unfold SuperMetroidData.new at hnew
  by_cases hsz : rom.size ≠ 0x300000
  · rw [if_pos hsz] at hnew
    cases hnew
  · rw [if_neg hsz] at hnew
    unfold Loader.load at hnew
    obtain ⟨st, hloop, hnew⟩ := bind_ok hnew
    obtain ⟨ts, hts, hnew⟩ := bind_ok hnew
    obtain ⟨a, hls, hnew⟩ := bind_ok hnew
    obtain ⟨ti1, tt1⟩ := a
    obtain ⟨ti2, hti2, hnew⟩ := bind_ok hnew
    obtain ⟨tt2, htt2, hnew⟩ := bind_ok hnew
    obtain rfl : _ = sm := Except.ok.inj hnew
    obtain rfl : _ = smp := Except.ok.inj h
    have hlen : ts.length = 29 := load_tileset_table_len rom _ _ _ hts
    obtain ⟨hm1, hm2, hall⟩ := load_tile_sets_spec rom _ _ _ _ _ hls
    obtain ⟨hcre1, hmono1⟩ := load_tiles_spec hti2
    obtain ⟨hcre2, hmono2⟩ := load_tile_table_spec htt2
    obtain ⟨hpm, hpall, hp128⟩ := load_palettes_spec rom _ _ _ hpals
    have h128 : ∀ k pal, alLookup pals k = some pal → pal.colors.length = 128 := by
      refine hp128 fun k pal hpal => ?_
      simp [alLookup] at hpal
    refine ⟨hlen, fun e he => ?_, hcre1, hcre2⟩
    obtain ⟨he1, he2⟩ := hall e he
    refine ⟨hmono1 _ he1, hmono2 _ he2, ?_⟩
    obtain ⟨pal, hpal⟩ := alContains_lookup _ _ (hpall e he)
    exact ⟨pal, hpal, h128 _ _ hpal⟩

set_option maxRecDepth 100000 in
/-- Witness for C1: the synthetic ROM `romW` loads successfully, with all 29
tileset entries and the CRE data cached and a 128-colour palette. -/
theorem c1_tileset_caches_witness :
    load_full romW = .ok smpW ∧
    (smpW.sm.tile_sets.length = 29 ∧
     (∀ e ∈ smpW.sm.tile_sets,
       alContains smpW.sm.tiles e.tiles_ptr = true ∧
       alContains smpW.sm.tile_tables e.tile_table_ptr = true ∧
       ∃ pal, alLookup smpW.palettes e.palette_ptr = some pal ∧
              pal.colors.length = 128) ∧
     alContains smpW.sm.tiles (rom_addr_to_snes CRE_TILES) = true ∧
     alContains smpW.sm.tile_tables (rom_addr_to_snes CRE_TILE_TABLE) = true) := by
  have hEq : load_full romW = .ok smpW := by decide
  exact ⟨hEq, c1_tileset_caches romW smpW hEq⟩
